import Mathlib

/-!
Shallow embedding of the population/neuron-dynamics module
(`BP_STDP/in_of_simulator/population.py`) of the SoftLIF_HUYNH repository.

Each Python class becomes a namespace holding a `State` structure (one field
per registered buffer / instance attribute), an `init` mirroring `__init__`,
a `reset`, and a `forward`.  Torch float tensors are modelled as functions
`Fin n → ℝ`; the in-place tensor mutations of `forward` are resolved into a
functional state-passing style that performs the same elementwise operations
in the same order.  Boolean tensors cast to float (`(cond).float()` or the
assignment of a comparison into a float buffer) become `if cond then 1 else 0`.

Python attribute errors (an `nn.Module` attribute that was never registered)
and torch shape errors are modelled by the `PyErr` type.  `forward` calls that
raise mid-way still return the mutated state together with the error, because
the Python object keeps the mutations performed before the exception.

The list-input wrappers `forwardL` model torch's treatment of a 1-D input
tensor whose length differs from the population size: an input of length
`n` is used elementwise, an input of length 1 is silently broadcast to all
`n` neurons, and any other length raises the library's shape error at the
first operation that consumes the input (for the leaky variants this is
after the membrane decay has already been written to `v`).
-/

set_option maxHeartbeats 1000000
set_option autoImplicit false

noncomputable section

/-- Python-level failures that the module can raise: a missing `nn.Module`
attribute (`AttributeError`) or a torch shape mismatch (`RuntimeError`). -/
inductive PyErr
  | attributeError
  | shapeError
deriving DecidableEq

/-- Torch broadcast of a 1-D tensor of length `x.length` into an in-place
elementwise operation against buffers of length `n`: exact length matches
elementwise, length 1 broadcasts, anything else is a shape error. -/
def broadcastTo (n : ℕ) (x : List ℝ) : Option (Fin n → ℝ) :=
  if x.length = n then some (fun i => x.getD i 0)
  else if x.length = 1 then some (fun _ => x.getD 0 0)
  else none

namespace InputPopulation

/-- Buffers and attributes of `InputPopulation`.  When `traces` is `false`
the Python object has no `x`/`tau_tr`/`scale_tr` buffers at all; the model
keeps the fields but `reset` raises `attributeError` in that case, exactly
as the Python `self.x.fill_(0.)` would. -/
structure State (n : ℕ) where
  dt : ℝ
  s : Fin n → ℝ
  traces : Bool
  x : Fin n → ℝ
  tau_tr : ℝ
  scale_tr : ℝ
  count_spike : Bool
  spikecount : Fin n → ℝ

variable {n : ℕ}

/-- Python `reset` (line 41-42): `self.x.fill_(0.)`; raises `AttributeError` when
the population was built with `traces=False` (no `x` buffer exists). -/
def reset (st : State n) : Except PyErr (State n) :=
  if st.traces then .ok { st with x := fun _ => 0 } else .error .attributeError

/-- Python `__init__` (lines 16-39): registers the buffers, then calls `reset()`
(which fails when `traces=False`), then registers `spikecount` when
`count_spike` is true.  The freshly registered buffers are already zero, so
construction is `reset` on the zero-buffer state. -/
def init (neurons : ℕ) (dt : ℝ) (traces : Bool) (tau_tr scale_tr : ℝ)
    (count_spike : Bool) : Except PyErr (State neurons) :=
  reset { dt := dt, s := fun _ => 0, traces := traces, x := fun _ => 0,
          tau_tr := tau_tr, scale_tr := scale_tr,
          count_spike := count_spike, spikecount := fun _ => 0 }

/-- Python `forward` (lines 44-54): `s[:] = x`; if traces,
`x_trace := x_trace * exp(-dt/tau_tr) + scale_tr * s`; if counting,
`spikecount += s`; returns `s`. -/
def forward (st : State n) (x : Fin n → ℝ) : State n × (Fin n → ℝ) :=
  let s := x
  let xtr := if st.traces then
      (fun i => st.x i * Real.exp (-st.dt / st.tau_tr) + st.scale_tr * s i)
    else st.x
  let sc := if st.count_spike then (fun i => st.spikecount i + s i)
    else st.spikecount
  ({ st with s := s, x := xtr, spikecount := sc }, s)

/-- Running `forward` on a raw 1-D tensor: the first consuming operation is
`self.s[:] = x`, so a non-broadcastable length fails before any mutation. -/
def forwardL (st : State n) (x : List ℝ) :
    State n × Except PyErr (Fin n → ℝ) :=
  match broadcastTo n x with
  | none => (st, .error .shapeError)
  | some xf => ((forward st xf).1, .ok (forward st xf).2)

end InputPopulation

namespace IFPopulation

/-- Buffers and attributes of `IFPopulation`.  `count_spike` records whether
the attribute `self.count_spike` exists on the object: `__init__` only sets
it (together with the `spikecount` buffer) inside `if count_spike == True:`,
so a population built with `count_spike=False` has neither. -/
structure State (n : ℕ) where
  dt : ℝ
  v : Fin n → ℝ
  v_th : ℝ
  rest : ℝ
  refrac : Fin n → ℝ
  tau_ref : ℝ
  s : Fin n → ℝ
  count_spike : Bool
  spikecount : Fin n → ℝ

variable {n : ℕ}

/-- Python `__init__` (lines 59-73): zero buffers, `v` filled with `rest`. -/
def init (neurons : ℕ) (dt v_th rest tau_ref : ℝ) (count_spike : Bool) :
    State neurons :=
  { dt := dt, v := fun _ => rest, v_th := v_th, rest := rest,
    refrac := fun _ => 0, tau_ref := tau_ref, s := fun _ => 0,
    count_spike := count_spike, spikecount := fun _ => 0 }

/-- Python `reset` (lines 75-76): `self.v[:] = self.rest`. -/
def reset (st : State n) : State n :=
  { st with v := fun _ => st.rest }

/-- Potential after input integration (line 79):
`v += (refrac <= 0).float() * x` — no leak term. -/
def vMid (st : State n) (x : Fin n → ℝ) : Fin n → ℝ :=
  fun i => st.v i + (if st.refrac i ≤ 0 then (1:ℝ) else 0) * x i

/-- Spike detection (line 83): `s[:] = (v >= v_th)` cast into a float buffer. -/
def sNew (st : State n) (x : Fin n → ℝ) : Fin n → ℝ :=
  fun i => if vMid st x i ≥ st.v_th then (1:ℝ) else 0

/-- Python `forward` (lines 78-91): integrate, `refrac -= dt`, threshold, masked
resets via `s.bool()`, then `if self.count_spike:` — which raises
`AttributeError` when the attribute was never set (`count_spike=False`),
after all of `v`, `refrac`, `s` have already been mutated. -/
def forward (st : State n) (x : Fin n → ℝ) :
    State n × Except PyErr ((Fin n → ℝ) × (Fin n → ℝ)) :=
  let s := sNew st x
  let refrac2 := fun i => if s i ≠ 0 then st.tau_ref else st.refrac i - st.dt
  let v3 := fun i => if s i ≠ 0 then st.rest else vMid st x i
  if st.count_spike then
    ({ st with
       v := v3, refrac := refrac2, s := s,
       spikecount := fun i => st.spikecount i + s i }, .ok (s, v3))
  else
    ({ st with v := v3, refrac := refrac2, s := s }, .error .attributeError)

/-- Running `forward` on a raw 1-D tensor: the first consuming operation is
`v += (refrac <= 0).float() * x`, so a non-broadcastable length fails
before any mutation. -/
def forwardL (st : State n) (x : List ℝ) :
    State n × Except PyErr ((Fin n → ℝ) × (Fin n → ℝ)) :=
  match broadcastTo n x with
  | none => (st, .error .shapeError)
  | some xf => forward st xf

/-- State after feeding a list of per-step input vectors, one per step. -/
def steps (st : State n) : List (Fin n → ℝ) → State n
  | [] => st
  | x :: xs => steps (forward st x).1 xs

end IFPopulation

namespace HomoeostasisLIFPopulation

/-- Buffers and attributes of `HomoeostasisLIFPopulation` (lines 93-120).
The `threshold` buffer is registered (initialised from `tau_ref`, then
filled with `v_th`) but never read by `forward`. -/
structure State (n : ℕ) where
  dt : ℝ
  v : Fin n → ℝ
  tau_rc : ℝ
  v_th : ℝ
  s : Fin n → ℝ
  rest : ℝ
  refrac : Fin n → ℝ
  tau_ref : ℝ
  threshold : ℝ
  theta_plus : ℝ
  theta : Fin n → ℝ
  tau_theta : ℝ
  frozen_th : Bool
  count_spike : Bool
  spikecount : Fin n → ℝ

variable {n : ℕ}

/-- Python `__init__` (lines 94-120): zero buffers, `v` filled with `rest`,
`threshold` filled with `v_th`, `theta` zero. -/
def init (neurons : ℕ) (dt tau_rc v_th theta_plus tau_theta rest tau_ref : ℝ)
    (frozen_threshold count_spike : Bool) : State neurons :=
  { dt := dt, v := fun _ => rest, tau_rc := tau_rc, v_th := v_th,
    s := fun _ => 0, rest := rest, refrac := fun _ => 0, tau_ref := tau_ref,
    threshold := v_th, theta_plus := theta_plus, theta := fun _ => 0,
    tau_theta := tau_theta, frozen_th := frozen_threshold,
    count_spike := count_spike, spikecount := fun _ => 0 }

/-- Python `reset` (lines 122-125): `v[:] = rest`; `spikecount.fill_(0.)` only when
`count_spike` is true; `theta` untouched. -/
def reset (st : State n) : State n :=
  { st with
    v := fun _ => st.rest,
    spikecount := if st.count_spike then (fun _ => 0) else st.spikecount }

/-- Membrane decay (line 129): `v := exp(-dt/tau_rc) * (v - rest) + rest`. -/
def decayV (st : State n) : Fin n → ℝ :=
  fun i => Real.exp (-st.dt / st.tau_rc) * (st.v i - st.rest) + st.rest

/-- Potential after decay and gated input integration (lines 129-131). -/
def vMid (st : State n) (x : Fin n → ℝ) : Fin n → ℝ :=
  fun i => decayV st i + (if st.refrac i ≤ 0 then (1:ℝ) else 0) * x i

/-- Spike detection (line 135): `s[:] = (v >= v_th + theta)`. -/
def sNew (st : State n) (x : Fin n → ℝ) : Fin n → ℝ :=
  fun i => if vMid st x i ≥ st.v_th + st.theta i then (1:ℝ) else 0

/-- Python `forward` (lines 127-151): decay, gated integration, `refrac -= dt`,
threshold with the per-neuron adaptive offset, spike counting
(`spikecount += (s>0).float() * 1`), theta adaptation unless frozen
(`theta += (s>0).float()*theta_plus; theta += (s<1).float()*exp(-(dt/tau_theta))`),
masked resets of `refrac` and `v`, returning `(s, v)`. -/
def forward (st : State n) (x : Fin n → ℝ) :
    State n × ((Fin n → ℝ) × (Fin n → ℝ)) :=
  let s := sNew st x
  let sc := if st.count_spike then
      (fun i => st.spikecount i + (if s i > 0 then (1:ℝ) else 0) * 1)
    else st.spikecount
  let th := if st.frozen_th = false then
      (fun i => st.theta i + (if s i > 0 then (1:ℝ) else 0) * st.theta_plus
        + (if s i < 1 then (1:ℝ) else 0) * Real.exp (-(st.dt / st.tau_theta)))
    else st.theta
  let refrac2 := fun i => if s i ≠ 0 then st.tau_ref else st.refrac i - st.dt
  let v3 := fun i => if s i ≠ 0 then st.rest else vMid st x i
  ({ st with
     v := v3, s := s, refrac := refrac2, theta := th,
     spikecount := sc }, (s, v3))

/-- Running `forward` on a raw 1-D tensor: the decay assignment (line 129) does not
consume the input and is executed first, so a non-broadcastable length
fails only after `v` has been overwritten with the decayed potential. -/
def forwardL (st : State n) (x : List ℝ) :
    State n × Except PyErr ((Fin n → ℝ) × (Fin n → ℝ)) :=
  match broadcastTo n x with
  | none => ({ st with v := decayV st }, .error .shapeError)
  | some xf => ((forward st xf).1, .ok (forward st xf).2)

/-- State after feeding a list of per-step input vectors, one per step. -/
def steps (st : State n) : List (Fin n → ℝ) → State n
  | [] => st
  | x :: xs => steps (forward st x).1 xs

end HomoeostasisLIFPopulation

namespace LIFPopulation2

/-- Buffers of `LIFPopulation2` (lines 154-169): a plain LIF with an
unconditional `spikecount` buffer and no theta offset. -/
structure State (n : ℕ) where
  dt : ℝ
  v : Fin n → ℝ
  tau_rc : ℝ
  v_th : ℝ
  s : Fin n → ℝ
  rest : ℝ
  refrac : Fin n → ℝ
  tau_ref : ℝ
  spikecount : Fin n → ℝ

variable {n : ℕ}

/-- Python `__init__` (lines 155-169): zero buffers, `v` filled with `rest`. -/
def init (neurons : ℕ) (dt tau_rc v_th rest tau_ref : ℝ) : State neurons :=
  { dt := dt, v := fun _ => rest, tau_rc := tau_rc, v_th := v_th,
    s := fun _ => 0, rest := rest, refrac := fun _ => 0, tau_ref := tau_ref,
    spikecount := fun _ => 0 }

/-- Python `reset` (lines 171-173): `v[:] = rest; spikecount.fill_(0)`. -/
def reset (st : State n) : State n :=
  { st with v := fun _ => st.rest, spikecount := fun _ => 0 }

/-- Membrane decay (line 177). -/
def decayV (st : State n) : Fin n → ℝ :=
  fun i => Real.exp (-st.dt / st.tau_rc) * (st.v i - st.rest) + st.rest

/-- Potential after decay and gated input integration (lines 177-179). -/
def vMid (st : State n) (x : Fin n → ℝ) : Fin n → ℝ :=
  fun i => decayV st i + (if st.refrac i ≤ 0 then (1:ℝ) else 0) * x i

/-- Spike detection (line 183): `s[:] = (v >= v_th)`. -/
def sNew (st : State n) (x : Fin n → ℝ) : Fin n → ℝ :=
  fun i => if vMid st x i ≥ st.v_th then (1:ℝ) else 0

/-- Python `forward` (lines 175-190): decay, gated integration, `refrac -= dt`,
threshold against `v_th` alone, `spikecount += (s>0).float() * 1`,
masked resets, returning `(s, v)`. -/
def forward (st : State n) (x : Fin n → ℝ) :
    State n × ((Fin n → ℝ) × (Fin n → ℝ)) :=
  let s := sNew st x
  let sc := fun i => st.spikecount i + (if s i > 0 then (1:ℝ) else 0) * 1
  let refrac2 := fun i => if s i ≠ 0 then st.tau_ref else st.refrac i - st.dt
  let v3 := fun i => if s i ≠ 0 then st.rest else vMid st x i
  ({ st with v := v3, s := s, refrac := refrac2, spikecount := sc }, (s, v3))

/-- Running `forward` on a raw 1-D tensor: decay first, then the input is consumed. -/
def forwardL (st : State n) (x : List ℝ) :
    State n × Except PyErr ((Fin n → ℝ) × (Fin n → ℝ)) :=
  match broadcastTo n x with
  | none => ({ st with v := decayV st }, .error .shapeError)
  | some xf => ((forward st xf).1, .ok (forward st xf).2)

/-- State after feeding a list of per-step input vectors, one per step. -/
def steps (st : State n) : List (Fin n → ℝ) → State n
  | [] => st
  | x :: xs => steps (forward st x).1 xs

end LIFPopulation2

namespace LIFPopulation

/-- Buffers of `LIFPopulation` (lines 201-217): a LIF with a scalar constant
`theta` threshold offset and no spike counting. -/
structure State (n : ℕ) where
  dt : ℝ
  v : Fin n → ℝ
  tau_rc : ℝ
  v_th : ℝ
  theta : ℝ
  s : Fin n → ℝ
  rest : ℝ
  refrac : Fin n → ℝ
  tau_ref : ℝ

variable {n : ℕ}

/-- Python `__init__` (lines 202-217): zero buffers, `v` filled with `rest`. -/
def init (neurons : ℕ) (dt tau_rc v_th theta rest tau_ref : ℝ) :
    State neurons :=
  { dt := dt, v := fun _ => rest, tau_rc := tau_rc, v_th := v_th,
    theta := theta, s := fun _ => 0, rest := rest, refrac := fun _ => 0,
    tau_ref := tau_ref }

/-- Python `reset` (lines 219-220): `v[:] = rest`. -/
def reset (st : State n) : State n :=
  { st with v := fun _ => st.rest }

/-- Membrane decay (line 223). -/
def decayV (st : State n) : Fin n → ℝ :=
  fun i => Real.exp (-st.dt / st.tau_rc) * (st.v i - st.rest) + st.rest

/-- Potential after decay and gated input integration (lines 223-225). -/
def vMid (st : State n) (x : Fin n → ℝ) : Fin n → ℝ :=
  fun i => decayV st i + (if st.refrac i ≤ 0 then (1:ℝ) else 0) * x i

/-- Spike detection (line 229): `s[:] = (v >= v_th + theta)`. -/
def sNew (st : State n) (x : Fin n → ℝ) : Fin n → ℝ :=
  fun i => if vMid st x i ≥ st.v_th + st.theta then (1:ℝ) else 0

/-- Python `forward` (lines 222-234): decay, gated integration, `refrac -= dt`,
threshold against `v_th + theta`, masked resets, returning `(s, v)`. -/
def forward (st : State n) (x : Fin n → ℝ) :
    State n × ((Fin n → ℝ) × (Fin n → ℝ)) :=
  let s := sNew st x
  let refrac2 := fun i => if s i ≠ 0 then st.tau_ref else st.refrac i - st.dt
  let v3 := fun i => if s i ≠ 0 then st.rest else vMid st x i
  ({ st with v := v3, s := s, refrac := refrac2 }, (s, v3))

/-- Running `forward` on a raw 1-D tensor: decay first, then the input is consumed. -/
def forwardL (st : State n) (x : List ℝ) :
    State n × Except PyErr ((Fin n → ℝ) × (Fin n → ℝ)) :=
  match broadcastTo n x with
  | none => ({ st with v := decayV st }, .error .shapeError)
  | some xf => ((forward st xf).1, .ok (forward st xf).2)

/-- State after feeding a list of per-step input vectors, one per step. -/
def steps (st : State n) : List (Fin n → ℝ) → State n
  | [] => st
  | x :: xs => steps (forward st x).1 xs

/-- The `(s, v)` pairs returned along a run over a list of inputs. -/
def outs (st : State n) : List (Fin n → ℝ) → List ((Fin n → ℝ) × (Fin n → ℝ))
  | [] => []
  | x :: xs => (forward st x).2 :: outs (forward st x).1 xs

end LIFPopulation

namespace DiehlAndCookPopulation

/-- Buffers of `DiehlAndCookPopulation` (lines 237-269): the `LIFPopulation`
recurrence with a scalar constant `theta` plus an optional spike trace `x`.
When `traces` is `false` the `x`/`tau_tr`/`scale_tr` buffers do not exist
and `reset` (hence `__init__`, which calls it) raises `AttributeError`. -/
structure State (n : ℕ) where
  dt : ℝ
  v : Fin n → ℝ
  tau_rc : ℝ
  v_th : ℝ
  theta : ℝ
  s : Fin n → ℝ
  rest : ℝ
  refrac : Fin n → ℝ
  tau_ref : ℝ
  traces : Bool
  x : Fin n → ℝ
  tau_tr : ℝ
  scale_tr : ℝ

variable {n : ℕ}

/-- Python `reset` (lines 271-273): `v.fill_(rest)` then `x.fill_(0.)`; the second
line raises `AttributeError` when `traces=False` (after `v` was filled). -/
def reset (st : State n) : Except PyErr (State n) :=
  if st.traces then .ok { st with v := fun _ => st.rest, x := fun _ => 0 }
  else .error .attributeError

/-- Python `__init__` (lines 238-269): registers the buffers (all zero), then calls
`reset()`, which fills `v` with `rest` and fails when `traces=False`. -/
def init (neurons : ℕ) (dt tau_rc v_th theta rest tau_ref : ℝ)
    (traces : Bool) (tau_tr scale_tr : ℝ) : Except PyErr (State neurons) :=
  reset { dt := dt, v := fun _ => 0, tau_rc := tau_rc, v_th := v_th,
          theta := theta, s := fun _ => 0, rest := rest,
          refrac := fun _ => 0, tau_ref := tau_ref, traces := traces,
          x := fun _ => 0, tau_tr := tau_tr, scale_tr := scale_tr }

/-- Membrane decay (line 276). -/
def decayV (st : State n) : Fin n → ℝ :=
  fun i => Real.exp (-st.dt / st.tau_rc) * (st.v i - st.rest) + st.rest

/-- Potential after decay and gated input integration (lines 276-278). -/
def vMid (st : State n) (x : Fin n → ℝ) : Fin n → ℝ :=
  fun i => decayV st i + (if st.refrac i ≤ 0 then (1:ℝ) else 0) * x i

/-- Spike detection (line 282): `s[:] = (v >= v_th + theta)`. -/
def sNew (st : State n) (x : Fin n → ℝ) : Fin n → ℝ :=
  fun i => if vMid st x i ≥ st.v_th + st.theta then (1:ℝ) else 0

/-- Python `forward` (lines 275-291): the same recurrence as `LIFPopulation.forward`
followed, when traces are enabled, by the trace update
`x_trace := x_trace * exp(-dt/tau_tr) + scale_tr * s`, and returns `(s, v)`. -/
def forward (st : State n) (x : Fin n → ℝ) :
    State n × ((Fin n → ℝ) × (Fin n → ℝ)) :=
  let s := sNew st x
  let refrac2 := fun i => if s i ≠ 0 then st.tau_ref else st.refrac i - st.dt
  let v3 := fun i => if s i ≠ 0 then st.rest else vMid st x i
  let xtr := if st.traces then
      (fun i => st.x i * Real.exp (-st.dt / st.tau_tr) + st.scale_tr * s i)
    else st.x
  ({ st with v := v3, s := s, refrac := refrac2, x := xtr }, (s, v3))

/-- Running `forward` on a raw 1-D tensor: decay first, then the input is consumed. -/
def forwardL (st : State n) (x : List ℝ) :
    State n × Except PyErr ((Fin n → ℝ) × (Fin n → ℝ)) :=
  match broadcastTo n x with
  | none => ({ st with v := decayV st }, .error .shapeError)
  | some xf => ((forward st xf).1, .ok (forward st xf).2)

/-- State after feeding a list of per-step input vectors, one per step. -/
def steps (st : State n) : List (Fin n → ℝ) → State n
  | [] => st
  | x :: xs => steps (forward st x).1 xs

/-- The `(s, v)` pairs returned along a run over a list of inputs. -/
def outs (st : State n) : List (Fin n → ℝ) → List ((Fin n → ℝ) × (Fin n → ℝ))
  | [] => []
  | x :: xs => (forward st x).2 :: outs (forward st x).1 xs

end DiehlAndCookPopulation

/-- Modelled from the spec's words (claim C1, spec section 4.3), for
comparison against the code's `forward` functions: the five-step ordered
recurrence (1) decay toward rest, (2) add input only where `refrac <= 0`,
(3) `refrac -= dt`, (4) `s := (v >= v_th + theta)`, (5) for exactly the
neurons where `s` is 1, `refrac := tau_ref` and `v := rest`.  Returns the
new `(s, v, refrac)` triple. -/
def specOrderedStep {n : ℕ} (dt tau_rc v_th rest tau_ref : ℝ)
    (theta : Fin n → ℝ) (v refrac x : Fin n → ℝ) :
    (Fin n → ℝ) × (Fin n → ℝ) × (Fin n → ℝ) :=
  let v1 := fun i => Real.exp (-dt / tau_rc) * (v i - rest) + rest
  let v2 := fun i => v1 i + (if refrac i ≤ 0 then x i else 0)
  let r1 := fun i => refrac i - dt
  let s := fun i => if v2 i ≥ v_th + theta i then (1:ℝ) else 0
  let r2 := fun i => if s i = 1 then tau_ref else r1 i
  let v3 := fun i => if s i = 1 then rest else v2 i
  (s, v3, r2)

/-! ## Helper lemmas -/

/-- A 0/1 gate times a value is the gated value. -/
lemma gate_mul (c : Prop) [Decidable c] (x : ℝ) :
    (if c then (1:ℝ) else 0) * x = if c then x else 0 := by
  split <;> simp

/-- Testing a 0/1 indicator for being nonzero is testing it for being 1. -/
lemma indicator_ne_zero_iff_eq_one (c : Prop) [Decidable c] :
    ((if c then (1:ℝ) else 0) ≠ 0) ↔ ((if c then (1:ℝ) else 0) = 1) := by
  split <;> norm_num

/-- Concrete homeostatic population used by witnesses: the constructor's
default hyperparameters, one neuron, adaptation not frozen. -/
def hlifEx : HomoeostasisLIFPopulation.State 1 :=
  HomoeostasisLIFPopulation.init 1 1 100 (-52) (5/100) 10000000 (-65) 5
    false true

/-- A 0/1 indicator takes no intermediate value. -/
lemma indicator_binary (c : Prop) [Decidable c] :
    (if c then (1:ℝ) else 0) = 0 ∨ (if c then (1:ℝ) else 0) = 1 := by
  split <;> simp

/-- Filling where a 0/1 indicator is nonzero is filling where it is 1. -/
lemma fill_eq (c : Prop) [Decidable c] (a b : ℝ) :
    (if (if c then (1:ℝ) else 0) ≠ 0 then a else b) =
    (if (if c then (1:ℝ) else 0) = 1 then a else b) := by
  by_cases h : c <;> simp [h]

namespace LIFPopulation

variable {n : ℕ} (st : State n) (x : Fin n → ℝ)

@[simp] lemma lif_forward_s : (forward st x).1.s = sNew st x := rfl

@[simp] lemma lif_forward_v : (forward st x).1.v =
    fun i => if sNew st x i ≠ 0 then st.rest else vMid st x i := rfl

@[simp] lemma lif_forward_refrac : (forward st x).1.refrac =
    fun i => if sNew st x i ≠ 0 then st.tau_ref else st.refrac i - st.dt := rfl

@[simp] lemma lif_forward_dt : (forward st x).1.dt = st.dt := rfl

@[simp] lemma lif_forward_rest : (forward st x).1.rest = st.rest := rfl

@[simp] lemma lif_forward_v_th : (forward st x).1.v_th = st.v_th := rfl

@[simp] lemma lif_forward_theta : (forward st x).1.theta = st.theta := rfl

@[simp] lemma lif_forward_tau_rc : (forward st x).1.tau_rc = st.tau_rc := rfl

@[simp] lemma lif_forward_tau_ref : (forward st x).1.tau_ref = st.tau_ref := rfl

lemma lif_forward_snd : (forward st x).2 =
    ((forward st x).1.s, (forward st x).1.v) := rfl

end LIFPopulation

namespace LIFPopulation2

variable {n : ℕ} (st : State n) (x : Fin n → ℝ)

@[simp] lemma lif2_forward_s : (forward st x).1.s = sNew st x := rfl

@[simp] lemma lif2_forward_v : (forward st x).1.v =
    fun i => if sNew st x i ≠ 0 then st.rest else vMid st x i := rfl

@[simp] lemma lif2_forward_refrac : (forward st x).1.refrac =
    fun i => if sNew st x i ≠ 0 then st.tau_ref else st.refrac i - st.dt := rfl

@[simp] lemma lif2_forward_dt : (forward st x).1.dt = st.dt := rfl

@[simp] lemma lif2_forward_rest : (forward st x).1.rest = st.rest := rfl

@[simp] lemma lif2_forward_v_th : (forward st x).1.v_th = st.v_th := rfl

@[simp] lemma lif2_forward_tau_rc : (forward st x).1.tau_rc = st.tau_rc := rfl

@[simp] lemma lif2_forward_tau_ref : (forward st x).1.tau_ref = st.tau_ref := rfl

lemma lif2_forward_snd : (forward st x).2 =
    ((forward st x).1.s, (forward st x).1.v) := rfl

end LIFPopulation2

namespace HomoeostasisLIFPopulation

variable {n : ℕ} (st : State n) (x : Fin n → ℝ)

@[simp] lemma hlif_forward_s : (forward st x).1.s = sNew st x := rfl

@[simp] lemma hlif_forward_v : (forward st x).1.v =
    fun i => if sNew st x i ≠ 0 then st.rest else vMid st x i := rfl

@[simp] lemma hlif_forward_refrac : (forward st x).1.refrac =
    fun i => if sNew st x i ≠ 0 then st.tau_ref else st.refrac i - st.dt := rfl

lemma hlif_forward_theta_def : (forward st x).1.theta =
    if st.frozen_th = false then
      (fun i => st.theta i + (if sNew st x i > 0 then (1:ℝ) else 0) * st.theta_plus
        + (if sNew st x i < 1 then (1:ℝ) else 0) *
            Real.exp (-(st.dt / st.tau_theta)))
    else st.theta := rfl

@[simp] lemma hlif_forward_dt : (forward st x).1.dt = st.dt := rfl

@[simp] lemma hlif_forward_rest : (forward st x).1.rest = st.rest := rfl

@[simp] lemma hlif_forward_v_th : (forward st x).1.v_th = st.v_th := rfl

@[simp] lemma hlif_forward_tau_rc : (forward st x).1.tau_rc = st.tau_rc := rfl

@[simp] lemma hlif_forward_tau_ref : (forward st x).1.tau_ref = st.tau_ref := rfl

@[simp] lemma hlif_forward_frozen_th : (forward st x).1.frozen_th = st.frozen_th := rfl

lemma hlif_forward_snd : (forward st x).2 =
    ((forward st x).1.s, (forward st x).1.v) := rfl

end HomoeostasisLIFPopulation

namespace DiehlAndCookPopulation

variable {n : ℕ} (st : State n) (x : Fin n → ℝ)

@[simp] lemma dac_forward_s : (forward st x).1.s = sNew st x := rfl

@[simp] lemma dac_forward_v : (forward st x).1.v =
    fun i => if sNew st x i ≠ 0 then st.rest else vMid st x i := rfl

@[simp] lemma dac_forward_refrac : (forward st x).1.refrac =
    fun i => if sNew st x i ≠ 0 then st.tau_ref else st.refrac i - st.dt := rfl

@[simp] lemma dac_forward_dt : (forward st x).1.dt = st.dt := rfl

@[simp] lemma dac_forward_rest : (forward st x).1.rest = st.rest := rfl

@[simp] lemma dac_forward_v_th : (forward st x).1.v_th = st.v_th := rfl

@[simp] lemma dac_forward_theta : (forward st x).1.theta = st.theta := rfl

@[simp] lemma dac_forward_tau_rc : (forward st x).1.tau_rc = st.tau_rc := rfl

@[simp] lemma dac_forward_tau_ref : (forward st x).1.tau_ref = st.tau_ref := rfl

lemma dac_forward_snd : (forward st x).2 =
    ((forward st x).1.s, (forward st x).1.v) := rfl

end DiehlAndCookPopulation

namespace IFPopulation

variable {n : ℕ} (st : State n) (x : Fin n → ℝ)

@[simp] lemma if_forward_s : (forward st x).1.s = sNew st x := by
  simp only [forward]
  split <;> rfl

@[simp] lemma if_forward_v : (forward st x).1.v =
    fun i => if sNew st x i ≠ 0 then st.rest else vMid st x i := by
  simp only [forward]
  split <;> rfl

@[simp] lemma if_forward_refrac : (forward st x).1.refrac =
    fun i => if sNew st x i ≠ 0 then st.tau_ref else st.refrac i - st.dt := by
  simp only [forward]
  split <;> rfl

@[simp] lemma if_forward_dt : (forward st x).1.dt = st.dt := by
  simp only [forward]
  split <;> rfl

@[simp] lemma if_forward_rest : (forward st x).1.rest = st.rest := by
  simp only [forward]
  split <;> rfl

@[simp] lemma if_forward_v_th : (forward st x).1.v_th = st.v_th := by
  simp only [forward]
  split <;> rfl

@[simp] lemma if_forward_tau_ref : (forward st x).1.tau_ref = st.tau_ref := by
  simp only [forward]
  split <;> rfl

end IFPopulation

/-! ## Claims about the homeostatic theta adaptation (C2, C10) -/

/-- Claim C2: in `HomoeostasisLIFPopulation.forward`, when
`frozen_threshold` is false the just-computed spike vector drives the theta
update: neurons with `s = 1` gain `theta_plus` and neurons with `s < 1`
gain the additive constant `exp(-dt/tau_theta)`; when `frozen_threshold`
is true, theta is unchanged by the step. -/
theorem claim_C2_homoeostasis_theta_update :
    ∀ (n : ℕ) (st : HomoeostasisLIFPopulation.State n) (x : Fin n → ℝ),
      (st.frozen_th = true →
        (HomoeostasisLIFPopulation.forward st x).1.theta = st.theta) ∧
      (st.frozen_th = false → ∀ i : Fin n,
        ((HomoeostasisLIFPopulation.forward st x).1.s i = 1 →
          (HomoeostasisLIFPopulation.forward st x).1.theta i =
            st.theta i + st.theta_plus) ∧
        ((HomoeostasisLIFPopulation.forward st x).1.s i < 1 →
          (HomoeostasisLIFPopulation.forward st x).1.theta i =
            st.theta i + Real.exp (-(st.dt / st.tau_theta)))) := by
  intro n st x
  constructor
  · intro hfr
    simp [HomoeostasisLIFPopulation.forward, hfr]
  · intro hfr i
    by_cases hc : HomoeostasisLIFPopulation.vMid st x i ≥ st.v_th + st.theta i
    · constructor
      · intro _
        simp [HomoeostasisLIFPopulation.forward, HomoeostasisLIFPopulation.sNew,
          hfr, hc]
      · intro hs
        simp [HomoeostasisLIFPopulation.forward, HomoeostasisLIFPopulation.sNew,
          hc] at hs
    · constructor
      · intro hs
        simp [HomoeostasisLIFPopulation.forward, HomoeostasisLIFPopulation.sNew,
          hc] at hs
      · intro _
        simp [HomoeostasisLIFPopulation.forward, HomoeostasisLIFPopulation.sNew,
          hfr, hc]

/-- Witness for C2: on the default-parameter one-neuron homeostatic
population at rest with zero input, the neuron does not spike and theta
gains exactly `exp(-(dt/tau_theta))`. -/
theorem claim_C2_witness :
    hlifEx.frozen_th = false ∧
    (HomoeostasisLIFPopulation.forward hlifEx (fun _ => 0)).1.s ⟨0, by norm_num⟩ < 1 ∧
    (HomoeostasisLIFPopulation.forward hlifEx (fun _ => 0)).1.theta ⟨0, by norm_num⟩ =
      hlifEx.theta ⟨0, by norm_num⟩ + Real.exp (-(hlifEx.dt / hlifEx.tau_theta)) := by
  have hs : (HomoeostasisLIFPopulation.forward hlifEx (fun _ => 0)).1.s
      ⟨0, by norm_num⟩ < 1 := by
    simp [hlifEx, HomoeostasisLIFPopulation.init, HomoeostasisLIFPopulation.forward,
      HomoeostasisLIFPopulation.sNew, HomoeostasisLIFPopulation.vMid,
      HomoeostasisLIFPopulation.decayV]
    norm_num
  exact ⟨rfl, hs,
    ((claim_C2_homoeostasis_theta_update 1 hlifEx (fun _ => 0)).2 rfl
      ⟨0, by norm_num⟩).2 hs⟩

/-- Claim C10: with `frozen_threshold = False`, `dt > 0` and
`theta_plus > 0`, every entry of theta strictly increases on every step of
`HomoeostasisLIFPopulation.forward`, whether or not the neuron spikes
(the non-spiking branch adds the strictly positive constant
`exp(-(dt/tau_theta))`, which in the real-number model is positive for
every real argument, so no finiteness side condition is needed). -/
theorem claim_C10_homoeostasis_theta_strictly_increases :
    ∀ (n : ℕ) (st : HomoeostasisLIFPopulation.State n) (x : Fin n → ℝ)
      (i : Fin n),
      st.frozen_th = false → 0 < st.dt → 0 < st.theta_plus →
      st.theta i < (HomoeostasisLIFPopulation.forward st x).1.theta i := by
  intro n st x i hfr _ hplus
  by_cases hc : HomoeostasisLIFPopulation.vMid st x i ≥ st.v_th + st.theta i
  · have : (HomoeostasisLIFPopulation.forward st x).1.theta i =
        st.theta i + st.theta_plus := by
      simp [HomoeostasisLIFPopulation.forward, HomoeostasisLIFPopulation.sNew,
        hfr, hc]
    rw [this]
    linarith
  · have : (HomoeostasisLIFPopulation.forward st x).1.theta i =
        st.theta i + Real.exp (-(st.dt / st.tau_theta)) := by
      simp [HomoeostasisLIFPopulation.forward, HomoeostasisLIFPopulation.sNew,
        hfr, hc]
    rw [this]
    have := Real.exp_pos (-(st.dt / st.tau_theta))
    linarith

/-- Witness for C10 at the default-parameter one-neuron homeostatic
population with zero input. -/
theorem claim_C10_witness :
    hlifEx.frozen_th = false ∧ (0:ℝ) < hlifEx.dt ∧ (0:ℝ) < hlifEx.theta_plus ∧
    hlifEx.theta ⟨0, by norm_num⟩ <
      (HomoeostasisLIFPopulation.forward hlifEx (fun _ => 0)).1.theta
        ⟨0, by norm_num⟩ :=
  ⟨rfl, by norm_num [hlifEx, HomoeostasisLIFPopulation.init],
    by norm_num [hlifEx, HomoeostasisLIFPopulation.init],
    claim_C10_homoeostasis_theta_strictly_increases 1 hlifEx (fun _ => 0)
      ⟨0, by norm_num⟩ rfl
      (by norm_num [hlifEx, HomoeostasisLIFPopulation.init])
      (by norm_num [hlifEx, HomoeostasisLIFPopulation.init])⟩

/-! ## Claim about reset (C3) -/

/-- Claim C3: each variant's `reset` restores exactly its cleared vectors
(Input: trace only; IF and plain LIF: `v` only; LIFPopulation2: `v` and
`spikecount`; homeostatic: `v` and, when counting is enabled, `spikecount`,
theta untouched; Diehl&Cook: `v` and trace) to their construction values,
leaving every other buffer and hyperparameter unchanged — expressed as a
record update that touches only those fields. -/
theorem claim_C3_reset_frame :
    (∀ (n : ℕ) (st : InputPopulation.State n), st.traces = true →
      InputPopulation.reset st = .ok { st with x := fun _ => 0 }) ∧
    (∀ (n : ℕ) (st : IFPopulation.State n),
      IFPopulation.reset st = { st with v := fun _ => st.rest }) ∧
    (∀ (n : ℕ) (st : LIFPopulation.State n),
      LIFPopulation.reset st = { st with v := fun _ => st.rest }) ∧
    (∀ (n : ℕ) (st : LIFPopulation2.State n),
      LIFPopulation2.reset st =
        { st with v := fun _ => st.rest, spikecount := fun _ => 0 }) ∧
    (∀ (n : ℕ) (st : HomoeostasisLIFPopulation.State n),
      HomoeostasisLIFPopulation.reset st =
        { st with
          v := fun _ => st.rest,
          spikecount := if st.count_spike then (fun _ => 0) else st.spikecount }) ∧
    (∀ (n : ℕ) (st : DiehlAndCookPopulation.State n), st.traces = true →
      DiehlAndCookPopulation.reset st =
        .ok { st with v := fun _ => st.rest, x := fun _ => 0 }) := by
  refine ⟨?_, fun n st => rfl, fun n st => rfl, fun n st => rfl,
    fun n st => rfl, ?_⟩
  · intro n st h
    simp [InputPopulation.reset, h]
  · intro n st h
    simp [DiehlAndCookPopulation.reset, h]

/-- Witness for C3 on concrete trace-enabled Input and Diehl&Cook
populations. -/
theorem claim_C3_witness :
    ({ dt := 1, s := fun _ => 0, traces := true, x := fun _ => 3, tau_tr := 20,
       scale_tr := 1, count_spike := false, spikecount := fun _ => 0 } :
        InputPopulation.State 1).traces = true ∧
    InputPopulation.reset
      ({ dt := 1, s := fun _ => 0, traces := true, x := fun _ => 3, tau_tr := 20,
         scale_tr := 1, count_spike := false, spikecount := fun _ => 0 } :
          InputPopulation.State 1) =
      .ok { dt := 1, s := fun _ => 0, traces := true, x := fun _ => 0,
            tau_tr := 20, scale_tr := 1, count_spike := false,
            spikecount := fun _ => 0 } :=
  ⟨rfl, claim_C3_reset_frame.1 1 _ rfl⟩

/-! ## Claim about traces=False construction (C8) -/

/-- Claim C8: building `InputPopulation` or `DiehlAndCookPopulation` with
`traces=False` fails with `AttributeError`, because `__init__`
unconditionally calls `reset()` and `reset()` unconditionally zeroes the
trace buffer `x`, which only exists when `traces=True`; consequently
`reset` is never callable on a traces-disabled instance of these two
variants. -/
theorem claim_C8_traces_false_construction_fails :
    (∀ (n : ℕ) (dt tau_tr scale_tr : ℝ) (cs : Bool),
      InputPopulation.init n dt false tau_tr scale_tr cs =
        .error .attributeError) ∧
    (∀ (n : ℕ) (st : InputPopulation.State n), st.traces = false →
      InputPopulation.reset st = .error .attributeError) ∧
    (∀ (n : ℕ) (dt tau_rc v_th theta rest tau_ref tau_tr scale_tr : ℝ),
      DiehlAndCookPopulation.init n dt tau_rc v_th theta rest tau_ref false
        tau_tr scale_tr = .error .attributeError) ∧
    (∀ (n : ℕ) (st : DiehlAndCookPopulation.State n), st.traces = false →
      DiehlAndCookPopulation.reset st = .error .attributeError) := by
  refine ⟨fun n dt tau_tr scale_tr cs => rfl, ?_,
    fun n dt tau_rc v_th theta rest tau_ref tau_tr scale_tr => rfl, ?_⟩
  · intro n st h
    simp [InputPopulation.reset, h]
  · intro n st h
    simp [DiehlAndCookPopulation.reset, h]

/-! ## Refractory-window helpers for C4 -/

/-- One held step of `LIFPopulation`: while the neuron sits at `rest`
below threshold with a strictly positive refractory counter, a step leaves
`v` at `rest` and decrements the counter by `dt`. -/
lemma lif_hold_one {n : ℕ} (st : LIFPopulation.State n) (x : Fin n → ℝ)
    (i : Fin n) (hv : st.v i = st.rest)
    (hth : st.rest < st.v_th + st.theta) (hr : 0 < st.refrac i) :
    (LIFPopulation.forward st x).1.v i = st.rest ∧
    (LIFPopulation.forward st x).1.refrac i = st.refrac i - st.dt := by
  have hgate : ¬ st.refrac i ≤ 0 := not_le.mpr hr
  have hvm : LIFPopulation.vMid st x i = st.rest := by
    simp [LIFPopulation.vMid, LIFPopulation.decayV, hv, hgate]
  have hs : LIFPopulation.sNew st x i = 0 := by
    have hlt : ¬ LIFPopulation.vMid st x i ≥ st.v_th + st.theta := by
      rw [hvm]
      exact not_le.mpr hth
    simp [LIFPopulation.sNew, hlt]
  constructor
  · simp [hs, hvm]
  · simp [hs]

/-- The function `LIFPopulation.steps` never changes the hyperparameters. -/
lemma lif_steps_params {n : ℕ} (xs : List (Fin n → ℝ))
    (st : LIFPopulation.State n) :
    (LIFPopulation.steps st xs).dt = st.dt ∧
    (LIFPopulation.steps st xs).rest = st.rest ∧
    (LIFPopulation.steps st xs).v_th = st.v_th ∧
    (LIFPopulation.steps st xs).theta = st.theta ∧
    (LIFPopulation.steps st xs).tau_ref = st.tau_ref := by
  induction xs generalizing st with
  | nil => exact ⟨rfl, rfl, rfl, rfl, rfl⟩
  | cons x xs ih =>
    simp only [LIFPopulation.steps]
    simpa using ih (LIFPopulation.forward st x).1

/-- Holding window of `LIFPopulation`: from a state at `rest` below
threshold, as long as the input list is short enough that the refractory
counter stays positive at every consumed step, `v i` stays at `rest` and
the counter decreases by `dt` per step. -/
lemma lif_window {n : ℕ} (xs : List (Fin n → ℝ)) :
    ∀ (st : LIFPopulation.State n) (i : Fin n),
      st.v i = st.rest → st.rest < st.v_th + st.theta → 0 < st.dt →
      ((xs.length : ℝ) - 1) * st.dt < st.refrac i →
      (LIFPopulation.steps st xs).v i = st.rest ∧
      (LIFPopulation.steps st xs).refrac i =
        st.refrac i - xs.length * st.dt := by
  induction xs with
  | nil =>
    intro st i hv _ _ _
    exact ⟨hv, by simp [LIFPopulation.steps]⟩
  | cons x xs ih =>
    intro st i hv hth hdt hbud
    have hb' : (xs.length : ℝ) * st.dt < st.refrac i := by
      have h := hbud
      push_cast [List.length_cons] at h
      rw [show ((xs.length : ℝ) + 1 - 1) = (xs.length : ℝ) from by ring] at h
      exact h
    have hr : 0 < st.refrac i :=
      lt_of_le_of_lt (mul_nonneg (Nat.cast_nonneg _) hdt.le) hb'
    have hone := lif_hold_one st x i hv hth hr
    have hbud' : ((xs.length : ℝ) - 1) * (LIFPopulation.forward st x).1.dt <
        (LIFPopulation.forward st x).1.refrac i := by
      simp only [LIFPopulation.lif_forward_dt]
      rw [hone.2,
        show ((xs.length : ℝ) - 1) * st.dt = (xs.length : ℝ) * st.dt - st.dt
          from by ring]
      linarith
    have hrec := ih (LIFPopulation.forward st x).1 i (by simpa using hone.1)
      (by simpa using hth) (by simpa using hdt) hbud'
    constructor
    · simpa [LIFPopulation.steps] using hrec.1
    · simp only [LIFPopulation.steps]
      rw [hrec.2, hone.2]
      simp only [LIFPopulation.lif_forward_dt]
      push_cast [List.length_cons]
      ring

/-- Refractory enforcement for `LIFPopulation` (the C4 property for this
variant): after a spike, `v i` is pinned for `ceil(tau_ref/dt)` steps, the
counter is nonpositive right after that window, and the next step's
integration phase adds the full input to the held potential. -/
lemma lif_refractory {n : ℕ} (st0 : LIFPopulation.State n) (x0 : Fin n → ℝ)
    (i : Fin n) (hdt : 0 < st0.dt) (hth : st0.rest < st0.v_th + st0.theta)
    (hs : (LIFPopulation.forward st0 x0).1.s i = 1) :
    (∀ xs : List (Fin n → ℝ),
      xs.length ≤ (⌈st0.tau_ref / st0.dt⌉).toNat →
      (LIFPopulation.steps (LIFPopulation.forward st0 x0).1 xs).v i =
        (LIFPopulation.forward st0 x0).1.v i) ∧
    (∀ xs : List (Fin n → ℝ),
      xs.length = (⌈st0.tau_ref / st0.dt⌉).toNat →
      (LIFPopulation.steps (LIFPopulation.forward st0 x0).1 xs).refrac i ≤ 0 ∧
      ∀ x : Fin n → ℝ,
        LIFPopulation.vMid
          (LIFPopulation.steps (LIFPopulation.forward st0 x0).1 xs) x i =
          st0.rest + x i) := by
  have hs' : LIFPopulation.sNew st0 x0 i = 1 := by simpa using hs
  have hv1 : (LIFPopulation.forward st0 x0).1.v i = st0.rest := by
    simp [hs']
  have hr1 : (LIFPopulation.forward st0 x0).1.refrac i = st0.tau_ref := by
    simp [hs']
  have hth1 : (LIFPopulation.forward st0 x0).1.rest <
      (LIFPopulation.forward st0 x0).1.v_th +
        (LIFPopulation.forward st0 x0).1.theta := by simpa using hth
  have hdt1 : (0:ℝ) < (LIFPopulation.forward st0 x0).1.dt := by simpa using hdt
  constructor
  · intro xs hlen
    rcases Nat.eq_zero_or_pos xs.length with h0 | hpos
    · obtain rfl := List.length_eq_zero.mp h0
      rfl
    · have hK1 : 1 ≤ (⌈st0.tau_ref / st0.dt⌉).toNat := le_trans hpos hlen
      have hc0 : (0:ℤ) ≤ ⌈st0.tau_ref / st0.dt⌉ := by
        by_contra hneg
        push_neg at hneg
        rw [Int.toNat_of_nonpos hneg.le] at hK1
        exact absurd hK1 (by norm_num)
      have hKcast : (((⌈st0.tau_ref / st0.dt⌉).toNat : ℕ) : ℝ) =
          ((⌈st0.tau_ref / st0.dt⌉ : ℤ) : ℝ) := by
        exact_mod_cast congrArg (fun z : ℤ => (z : ℝ))
          (Int.toNat_of_nonneg hc0)
      have hlenR : ((xs.length : ℕ) : ℝ) ≤
          (((⌈st0.tau_ref / st0.dt⌉).toNat : ℕ) : ℝ) := Nat.cast_le.mpr hlen
      have hbud : ((xs.length : ℝ) - 1) * (LIFPopulation.forward st0 x0).1.dt <
          (LIFPopulation.forward st0 x0).1.refrac i := by
        simp only [LIFPopulation.lif_forward_dt]
        rw [hr1]
        have h1 : (xs.length : ℝ) - 1 < st0.tau_ref / st0.dt := by
          rw [hKcast] at hlenR
          have := Int.ceil_lt_add_one (st0.tau_ref / st0.dt)
          linarith
        calc ((xs.length : ℝ) - 1) * st0.dt
            < st0.tau_ref / st0.dt * st0.dt :=
              mul_lt_mul_of_pos_right h1 hdt
          _ = st0.tau_ref := div_mul_cancel₀ _ (ne_of_gt hdt)
      have hwin := lif_window xs (LIFPopulation.forward st0 x0).1 i
        (by simpa using hv1) hth1 hdt1 hbud
      rw [hwin.1, hv1]
      simp
  · intro xs hlenK
    rcases Nat.eq_zero_or_pos ((⌈st0.tau_ref / st0.dt⌉).toNat) with hK0 | hKpos
    · have hxs : xs = [] := List.length_eq_zero.mp (by rw [hlenK, hK0])
      subst hxs
      have htr : st0.tau_ref ≤ 0 := by
        have hcle : ⌈st0.tau_ref / st0.dt⌉ ≤ 0 := Int.toNat_eq_zero.mp hK0
        have hle : st0.tau_ref / st0.dt ≤ 0 := by
          have h1 := Int.le_ceil (st0.tau_ref / st0.dt)
          have h2 : ((⌈st0.tau_ref / st0.dt⌉ : ℤ) : ℝ) ≤ 0 := by
            exact_mod_cast hcle
          linarith
        nlinarith [div_mul_cancel₀ st0.tau_ref (ne_of_gt hdt)]
      refine ⟨by rw [show LIFPopulation.steps (LIFPopulation.forward st0 x0).1
          [] = (LIFPopulation.forward st0 x0).1 from rfl, hr1]; exact htr, ?_⟩
      intro x
      have hgate : (LIFPopulation.forward st0 x0).1.refrac i ≤ 0 := by
        rw [hr1]; exact htr
      show LIFPopulation.vMid (LIFPopulation.forward st0 x0).1 x i =
        st0.rest + x i
      simp only [LIFPopulation.vMid, LIFPopulation.decayV]
      rw [hv1, if_pos hgate]
      simp only [LIFPopulation.lif_forward_rest]
      ring
    · have hc0 : (0:ℤ) ≤ ⌈st0.tau_ref / st0.dt⌉ := by
        by_contra hneg
        push_neg at hneg
        rw [Int.toNat_of_nonpos hneg.le] at hKpos
        exact absurd hKpos (by norm_num)
      have hKcast : (((⌈st0.tau_ref / st0.dt⌉).toNat : ℕ) : ℝ) =
          ((⌈st0.tau_ref / st0.dt⌉ : ℤ) : ℝ) := by
        exact_mod_cast congrArg (fun z : ℤ => (z : ℝ))
          (Int.toNat_of_nonneg hc0)
      have hbud : ((xs.length : ℝ) - 1) * (LIFPopulation.forward st0 x0).1.dt <
          (LIFPopulation.forward st0 x0).1.refrac i := by
        simp only [LIFPopulation.lif_forward_dt]
        rw [hr1]
        have h1 : (xs.length : ℝ) - 1 < st0.tau_ref / st0.dt := by
          rw [hlenK, hKcast]
          have := Int.ceil_lt_add_one (st0.tau_ref / st0.dt)
          linarith
        calc ((xs.length : ℝ) - 1) * st0.dt
            < st0.tau_ref / st0.dt * st0.dt :=
              mul_lt_mul_of_pos_right h1 hdt
          _ = st0.tau_ref := div_mul_cancel₀ _ (ne_of_gt hdt)
      have hwin := lif_window xs (LIFPopulation.forward st0 x0).1 i
        (by simpa using hv1) hth1 hdt1 hbud
      have hrefF : (LIFPopulation.steps (LIFPopulation.forward st0 x0).1
          xs).refrac i ≤ 0 := by
        rw [hwin.2, hr1]
        simp only [LIFPopulation.lif_forward_dt]
        rw [hlenK, hKcast]
        have hceil := Int.le_ceil (st0.tau_ref / st0.dt)
        have h3 : st0.tau_ref / st0.dt * st0.dt ≤
            ((⌈st0.tau_ref / st0.dt⌉ : ℤ) : ℝ) * st0.dt :=
          mul_le_mul_of_nonneg_right hceil hdt.le
        rw [div_mul_cancel₀ _ (ne_of_gt hdt)] at h3
        linarith
      refine ⟨hrefF, ?_⟩
      intro x
      have hFv : (LIFPopulation.steps (LIFPopulation.forward st0 x0).1
          xs).v i = st0.rest := by simpa using hwin.1
      have hparams := lif_steps_params xs (LIFPopulation.forward st0 x0).1
      simp only [LIFPopulation.vMid, LIFPopulation.decayV]
      rw [hFv, if_pos hrefF, hparams.2.1]
      simp only [LIFPopulation.lif_forward_rest]
      ring

/-- One held step of `LIFPopulation`: while the neuron sits at `rest`
below threshold with a strictly positive refractory counter, a step leaves
`v` at `rest` and decrements the counter by `dt`. -/
lemma lif2_hold_one {n : ℕ} (st : LIFPopulation2.State n) (x : Fin n → ℝ)
    (i : Fin n) (hv : st.v i = st.rest)
    (hth : st.rest < st.v_th) (hr : 0 < st.refrac i) :
    (LIFPopulation2.forward st x).1.v i = st.rest ∧
    (LIFPopulation2.forward st x).1.refrac i = st.refrac i - st.dt := by
  have hgate : ¬ st.refrac i ≤ 0 := not_le.mpr hr
  have hvm : LIFPopulation2.vMid st x i = st.rest := by
    simp [LIFPopulation2.vMid, LIFPopulation2.decayV, hv, hgate]
  have hs : LIFPopulation2.sNew st x i = 0 := by
    have hlt : ¬ LIFPopulation2.vMid st x i ≥ st.v_th := by
      rw [hvm]
      exact not_le.mpr hth
    simp [LIFPopulation2.sNew, hlt]
  constructor
  · simp [hs, hvm]
  · simp [hs]

/-- The function `LIFPopulation2.steps` never changes the hyperparameters. -/
lemma lif2_steps_params {n : ℕ} (xs : List (Fin n → ℝ))
    (st : LIFPopulation2.State n) :
    (LIFPopulation2.steps st xs).dt = st.dt ∧
    (LIFPopulation2.steps st xs).rest = st.rest ∧
    (LIFPopulation2.steps st xs).v_th = st.v_th ∧
    (LIFPopulation2.steps st xs).tau_ref = st.tau_ref := by
  induction xs generalizing st with
  | nil => exact ⟨rfl, rfl, rfl, rfl⟩
  | cons x xs ih =>
    simp only [LIFPopulation2.steps]
    simpa using ih (LIFPopulation2.forward st x).1

/-- Holding window of `LIFPopulation`: from a state at `rest` below
threshold, as long as the input list is short enough that the refractory
counter stays positive at every consumed step, `v i` stays at `rest` and
the counter decreases by `dt` per step. -/
lemma lif2_window {n : ℕ} (xs : List (Fin n → ℝ)) :
    ∀ (st : LIFPopulation2.State n) (i : Fin n),
      st.v i = st.rest → st.rest < st.v_th → 0 < st.dt →
      ((xs.length : ℝ) - 1) * st.dt < st.refrac i →
      (LIFPopulation2.steps st xs).v i = st.rest ∧
      (LIFPopulation2.steps st xs).refrac i =
        st.refrac i - xs.length * st.dt := by
  induction xs with
  | nil =>
    intro st i hv _ _ _
    exact ⟨hv, by simp [LIFPopulation2.steps]⟩
  | cons x xs ih =>
    intro st i hv hth hdt hbud
    have hb' : (xs.length : ℝ) * st.dt < st.refrac i := by
      have h := hbud
      push_cast [List.length_cons] at h
      rw [show ((xs.length : ℝ) + 1 - 1) = (xs.length : ℝ) from by ring] at h
      exact h
    have hr : 0 < st.refrac i :=
      lt_of_le_of_lt (mul_nonneg (Nat.cast_nonneg _) hdt.le) hb'
    have hone := lif2_hold_one st x i hv hth hr
    have hbud' : ((xs.length : ℝ) - 1) * (LIFPopulation2.forward st x).1.dt <
        (LIFPopulation2.forward st x).1.refrac i := by
      simp only [LIFPopulation2.lif2_forward_dt]
      rw [hone.2,
        show ((xs.length : ℝ) - 1) * st.dt = (xs.length : ℝ) * st.dt - st.dt
          from by ring]
      linarith
    have hrec := ih (LIFPopulation2.forward st x).1 i (by simpa using hone.1)
      (by simpa using hth) (by simpa using hdt) hbud'
    constructor
    · simpa [LIFPopulation2.steps] using hrec.1
    · simp only [LIFPopulation2.steps]
      rw [hrec.2, hone.2]
      simp only [LIFPopulation2.lif2_forward_dt]
      push_cast [List.length_cons]
      ring

/-- Refractory enforcement for `LIFPopulation` (the C4 property for this
variant): after a spike, `v i` is pinned for `ceil(tau_ref/dt)` steps, the
counter is nonpositive right after that window, and the next step's
integration phase adds the full input to the held potential. -/
lemma lif2_refractory {n : ℕ} (st0 : LIFPopulation2.State n) (x0 : Fin n → ℝ)
    (i : Fin n) (hdt : 0 < st0.dt) (hth : st0.rest < st0.v_th)
    (hs : (LIFPopulation2.forward st0 x0).1.s i = 1) :
    (∀ xs : List (Fin n → ℝ),
      xs.length ≤ (⌈st0.tau_ref / st0.dt⌉).toNat →
      (LIFPopulation2.steps (LIFPopulation2.forward st0 x0).1 xs).v i =
        (LIFPopulation2.forward st0 x0).1.v i) ∧
    (∀ xs : List (Fin n → ℝ),
      xs.length = (⌈st0.tau_ref / st0.dt⌉).toNat →
      (LIFPopulation2.steps (LIFPopulation2.forward st0 x0).1 xs).refrac i ≤ 0 ∧
      ∀ x : Fin n → ℝ,
        LIFPopulation2.vMid
          (LIFPopulation2.steps (LIFPopulation2.forward st0 x0).1 xs) x i =
          st0.rest + x i) := by
  have hs' : LIFPopulation2.sNew st0 x0 i = 1 := by simpa using hs
  have hv1 : (LIFPopulation2.forward st0 x0).1.v i = st0.rest := by
    simp [hs']
  have hr1 : (LIFPopulation2.forward st0 x0).1.refrac i = st0.tau_ref := by
    simp [hs']
  have hth1 : (LIFPopulation2.forward st0 x0).1.rest <
      (LIFPopulation2.forward st0 x0).1.v_th := by simpa using hth
  have hdt1 : (0:ℝ) < (LIFPopulation2.forward st0 x0).1.dt := by simpa using hdt
  constructor
  · intro xs hlen
    rcases Nat.eq_zero_or_pos xs.length with h0 | hpos
    · obtain rfl := List.length_eq_zero.mp h0
      rfl
    · have hK1 : 1 ≤ (⌈st0.tau_ref / st0.dt⌉).toNat := le_trans hpos hlen
      have hc0 : (0:ℤ) ≤ ⌈st0.tau_ref / st0.dt⌉ := by
        by_contra hneg
        push_neg at hneg
        rw [Int.toNat_of_nonpos hneg.le] at hK1
        exact absurd hK1 (by norm_num)
      have hKcast : (((⌈st0.tau_ref / st0.dt⌉).toNat : ℕ) : ℝ) =
          ((⌈st0.tau_ref / st0.dt⌉ : ℤ) : ℝ) := by
        exact_mod_cast congrArg (fun z : ℤ => (z : ℝ))
          (Int.toNat_of_nonneg hc0)
      have hlenR : ((xs.length : ℕ) : ℝ) ≤
          (((⌈st0.tau_ref / st0.dt⌉).toNat : ℕ) : ℝ) := Nat.cast_le.mpr hlen
      have hbud : ((xs.length : ℝ) - 1) * (LIFPopulation2.forward st0 x0).1.dt <
          (LIFPopulation2.forward st0 x0).1.refrac i := by
        simp only [LIFPopulation2.lif2_forward_dt]
        rw [hr1]
        have h1 : (xs.length : ℝ) - 1 < st0.tau_ref / st0.dt := by
          rw [hKcast] at hlenR
          have := Int.ceil_lt_add_one (st0.tau_ref / st0.dt)
          linarith
        calc ((xs.length : ℝ) - 1) * st0.dt
            < st0.tau_ref / st0.dt * st0.dt :=
              mul_lt_mul_of_pos_right h1 hdt
          _ = st0.tau_ref := div_mul_cancel₀ _ (ne_of_gt hdt)
      have hwin := lif2_window xs (LIFPopulation2.forward st0 x0).1 i
        (by simpa using hv1) hth1 hdt1 hbud
      rw [hwin.1, hv1]
      simp
  · intro xs hlenK
    rcases Nat.eq_zero_or_pos ((⌈st0.tau_ref / st0.dt⌉).toNat) with hK0 | hKpos
    · have hxs : xs = [] := List.length_eq_zero.mp (by rw [hlenK, hK0])
      subst hxs
      have htr : st0.tau_ref ≤ 0 := by
        have hcle : ⌈st0.tau_ref / st0.dt⌉ ≤ 0 := Int.toNat_eq_zero.mp hK0
        have hle : st0.tau_ref / st0.dt ≤ 0 := by
          have h1 := Int.le_ceil (st0.tau_ref / st0.dt)
          have h2 : ((⌈st0.tau_ref / st0.dt⌉ : ℤ) : ℝ) ≤ 0 := by
            exact_mod_cast hcle
          linarith
        nlinarith [div_mul_cancel₀ st0.tau_ref (ne_of_gt hdt)]
      refine ⟨by rw [show LIFPopulation2.steps (LIFPopulation2.forward st0 x0).1
          [] = (LIFPopulation2.forward st0 x0).1 from rfl, hr1]; exact htr, ?_⟩
      intro x
      have hgate : (LIFPopulation2.forward st0 x0).1.refrac i ≤ 0 := by
        rw [hr1]; exact htr
      show LIFPopulation2.vMid (LIFPopulation2.forward st0 x0).1 x i =
        st0.rest + x i
      simp only [LIFPopulation2.vMid, LIFPopulation2.decayV]
      rw [hv1, if_pos hgate]
      simp only [LIFPopulation2.lif2_forward_rest]
      ring
    · have hc0 : (0:ℤ) ≤ ⌈st0.tau_ref / st0.dt⌉ := by
        by_contra hneg
        push_neg at hneg
        rw [Int.toNat_of_nonpos hneg.le] at hKpos
        exact absurd hKpos (by norm_num)
      have hKcast : (((⌈st0.tau_ref / st0.dt⌉).toNat : ℕ) : ℝ) =
          ((⌈st0.tau_ref / st0.dt⌉ : ℤ) : ℝ) := by
        exact_mod_cast congrArg (fun z : ℤ => (z : ℝ))
          (Int.toNat_of_nonneg hc0)
      have hbud : ((xs.length : ℝ) - 1) * (LIFPopulation2.forward st0 x0).1.dt <
          (LIFPopulation2.forward st0 x0).1.refrac i := by
        simp only [LIFPopulation2.lif2_forward_dt]
        rw [hr1]
        have h1 : (xs.length : ℝ) - 1 < st0.tau_ref / st0.dt := by
          rw [hlenK, hKcast]
          have := Int.ceil_lt_add_one (st0.tau_ref / st0.dt)
          linarith
        calc ((xs.length : ℝ) - 1) * st0.dt
            < st0.tau_ref / st0.dt * st0.dt :=
              mul_lt_mul_of_pos_right h1 hdt
          _ = st0.tau_ref := div_mul_cancel₀ _ (ne_of_gt hdt)
      have hwin := lif2_window xs (LIFPopulation2.forward st0 x0).1 i
        (by simpa using hv1) hth1 hdt1 hbud
      have hrefF : (LIFPopulation2.steps (LIFPopulation2.forward st0 x0).1
          xs).refrac i ≤ 0 := by
        rw [hwin.2, hr1]
        simp only [LIFPopulation2.lif2_forward_dt]
        rw [hlenK, hKcast]
        have hceil := Int.le_ceil (st0.tau_ref / st0.dt)
        have h3 : st0.tau_ref / st0.dt * st0.dt ≤
            ((⌈st0.tau_ref / st0.dt⌉ : ℤ) : ℝ) * st0.dt :=
          mul_le_mul_of_nonneg_right hceil hdt.le
        rw [div_mul_cancel₀ _ (ne_of_gt hdt)] at h3
        linarith
      refine ⟨hrefF, ?_⟩
      intro x
      have hFv : (LIFPopulation2.steps (LIFPopulation2.forward st0 x0).1
          xs).v i = st0.rest := by simpa using hwin.1
      have hparams := lif2_steps_params xs (LIFPopulation2.forward st0 x0).1
      simp only [LIFPopulation2.vMid, LIFPopulation2.decayV]
      rw [hFv, if_pos hrefF, hparams.2.1]
      simp only [LIFPopulation2.lif2_forward_rest]
      ring


/-- One held step of `LIFPopulation`: while the neuron sits at `rest`
below threshold with a strictly positive refractory counter, a step leaves
`v` at `rest` and decrements the counter by `dt`. -/
lemma dac_hold_one {n : ℕ} (st : DiehlAndCookPopulation.State n) (x : Fin n → ℝ)
    (i : Fin n) (hv : st.v i = st.rest)
    (hth : st.rest < st.v_th + st.theta) (hr : 0 < st.refrac i) :
    (DiehlAndCookPopulation.forward st x).1.v i = st.rest ∧
    (DiehlAndCookPopulation.forward st x).1.refrac i = st.refrac i - st.dt := by
  have hgate : ¬ st.refrac i ≤ 0 := not_le.mpr hr
  have hvm : DiehlAndCookPopulation.vMid st x i = st.rest := by
    simp [DiehlAndCookPopulation.vMid, DiehlAndCookPopulation.decayV, hv, hgate]
  have hs : DiehlAndCookPopulation.sNew st x i = 0 := by
    have hlt : ¬ DiehlAndCookPopulation.vMid st x i ≥ st.v_th + st.theta := by
      rw [hvm]
      exact not_le.mpr hth
    simp [DiehlAndCookPopulation.sNew, hlt]
  constructor
  · simp [hs, hvm]
  · simp [hs]

/-- The function `DiehlAndCookPopulation.steps` never changes the hyperparameters. -/
lemma dac_steps_params {n : ℕ} (xs : List (Fin n → ℝ))
    (st : DiehlAndCookPopulation.State n) :
    (DiehlAndCookPopulation.steps st xs).dt = st.dt ∧
    (DiehlAndCookPopulation.steps st xs).rest = st.rest ∧
    (DiehlAndCookPopulation.steps st xs).v_th = st.v_th ∧
    (DiehlAndCookPopulation.steps st xs).theta = st.theta ∧
    (DiehlAndCookPopulation.steps st xs).tau_ref = st.tau_ref := by
  induction xs generalizing st with
  | nil => exact ⟨rfl, rfl, rfl, rfl, rfl⟩
  | cons x xs ih =>
    simp only [DiehlAndCookPopulation.steps]
    simpa using ih (DiehlAndCookPopulation.forward st x).1

/-- Holding window of `LIFPopulation`: from a state at `rest` below
threshold, as long as the input list is short enough that the refractory
counter stays positive at every consumed step, `v i` stays at `rest` and
the counter decreases by `dt` per step. -/
lemma dac_window {n : ℕ} (xs : List (Fin n → ℝ)) :
    ∀ (st : DiehlAndCookPopulation.State n) (i : Fin n),
      st.v i = st.rest → st.rest < st.v_th + st.theta → 0 < st.dt →
      ((xs.length : ℝ) - 1) * st.dt < st.refrac i →
      (DiehlAndCookPopulation.steps st xs).v i = st.rest ∧
      (DiehlAndCookPopulation.steps st xs).refrac i =
        st.refrac i - xs.length * st.dt := by
  induction xs with
  | nil =>
    intro st i hv _ _ _
    exact ⟨hv, by simp [DiehlAndCookPopulation.steps]⟩
  | cons x xs ih =>
    intro st i hv hth hdt hbud
    have hb' : (xs.length : ℝ) * st.dt < st.refrac i := by
      have h := hbud
      push_cast [List.length_cons] at h
      rw [show ((xs.length : ℝ) + 1 - 1) = (xs.length : ℝ) from by ring] at h
      exact h
    have hr : 0 < st.refrac i :=
      lt_of_le_of_lt (mul_nonneg (Nat.cast_nonneg _) hdt.le) hb'
    have hone := dac_hold_one st x i hv hth hr
    have hbud' : ((xs.length : ℝ) - 1) * (DiehlAndCookPopulation.forward st x).1.dt <
        (DiehlAndCookPopulation.forward st x).1.refrac i := by
      simp only [DiehlAndCookPopulation.dac_forward_dt]
      rw [hone.2,
        show ((xs.length : ℝ) - 1) * st.dt = (xs.length : ℝ) * st.dt - st.dt
          from by ring]
      linarith
    have hrec := ih (DiehlAndCookPopulation.forward st x).1 i (by simpa using hone.1)
      (by simpa using hth) (by simpa using hdt) hbud'
    constructor
    · simpa [DiehlAndCookPopulation.steps] using hrec.1
    · simp only [DiehlAndCookPopulation.steps]
      rw [hrec.2, hone.2]
      simp only [DiehlAndCookPopulation.dac_forward_dt]
      push_cast [List.length_cons]
      ring

/-- Refractory enforcement for `LIFPopulation` (the C4 property for this
variant): after a spike, `v i` is pinned for `ceil(tau_ref/dt)` steps, the
counter is nonpositive right after that window, and the next step's
integration phase adds the full input to the held potential. -/
lemma dac_refractory {n : ℕ} (st0 : DiehlAndCookPopulation.State n) (x0 : Fin n → ℝ)
    (i : Fin n) (hdt : 0 < st0.dt) (hth : st0.rest < st0.v_th + st0.theta)
    (hs : (DiehlAndCookPopulation.forward st0 x0).1.s i = 1) :
    (∀ xs : List (Fin n → ℝ),
      xs.length ≤ (⌈st0.tau_ref / st0.dt⌉).toNat →
      (DiehlAndCookPopulation.steps (DiehlAndCookPopulation.forward st0 x0).1 xs).v i =
        (DiehlAndCookPopulation.forward st0 x0).1.v i) ∧
    (∀ xs : List (Fin n → ℝ),
      xs.length = (⌈st0.tau_ref / st0.dt⌉).toNat →
      (DiehlAndCookPopulation.steps (DiehlAndCookPopulation.forward st0 x0).1 xs).refrac i ≤ 0 ∧
      ∀ x : Fin n → ℝ,
        DiehlAndCookPopulation.vMid
          (DiehlAndCookPopulation.steps (DiehlAndCookPopulation.forward st0 x0).1 xs) x i =
          st0.rest + x i) := by
  have hs' : DiehlAndCookPopulation.sNew st0 x0 i = 1 := by simpa using hs
  have hv1 : (DiehlAndCookPopulation.forward st0 x0).1.v i = st0.rest := by
    simp [hs']
  have hr1 : (DiehlAndCookPopulation.forward st0 x0).1.refrac i = st0.tau_ref := by
    simp [hs']
  have hth1 : (DiehlAndCookPopulation.forward st0 x0).1.rest <
      (DiehlAndCookPopulation.forward st0 x0).1.v_th +
        (DiehlAndCookPopulation.forward st0 x0).1.theta := by simpa using hth
  have hdt1 : (0:ℝ) < (DiehlAndCookPopulation.forward st0 x0).1.dt := by simpa using hdt
  constructor
  · intro xs hlen
    rcases Nat.eq_zero_or_pos xs.length with h0 | hpos
    · obtain rfl := List.length_eq_zero.mp h0
      rfl
    · have hK1 : 1 ≤ (⌈st0.tau_ref / st0.dt⌉).toNat := le_trans hpos hlen
      have hc0 : (0:ℤ) ≤ ⌈st0.tau_ref / st0.dt⌉ := by
        by_contra hneg
        push_neg at hneg
        rw [Int.toNat_of_nonpos hneg.le] at hK1
        exact absurd hK1 (by norm_num)
      have hKcast : (((⌈st0.tau_ref / st0.dt⌉).toNat : ℕ) : ℝ) =
          ((⌈st0.tau_ref / st0.dt⌉ : ℤ) : ℝ) := by
        exact_mod_cast congrArg (fun z : ℤ => (z : ℝ))
          (Int.toNat_of_nonneg hc0)
      have hlenR : ((xs.length : ℕ) : ℝ) ≤
          (((⌈st0.tau_ref / st0.dt⌉).toNat : ℕ) : ℝ) := Nat.cast_le.mpr hlen
      have hbud : ((xs.length : ℝ) - 1) * (DiehlAndCookPopulation.forward st0 x0).1.dt <
          (DiehlAndCookPopulation.forward st0 x0).1.refrac i := by
        simp only [DiehlAndCookPopulation.dac_forward_dt]
        rw [hr1]
        have h1 : (xs.length : ℝ) - 1 < st0.tau_ref / st0.dt := by
          rw [hKcast] at hlenR
          have := Int.ceil_lt_add_one (st0.tau_ref / st0.dt)
          linarith
        calc ((xs.length : ℝ) - 1) * st0.dt
            < st0.tau_ref / st0.dt * st0.dt :=
              mul_lt_mul_of_pos_right h1 hdt
          _ = st0.tau_ref := div_mul_cancel₀ _ (ne_of_gt hdt)
      have hwin := dac_window xs (DiehlAndCookPopulation.forward st0 x0).1 i
        (by simpa using hv1) hth1 hdt1 hbud
      rw [hwin.1, hv1]
      simp
  · intro xs hlenK
    rcases Nat.eq_zero_or_pos ((⌈st0.tau_ref / st0.dt⌉).toNat) with hK0 | hKpos
    · have hxs : xs = [] := List.length_eq_zero.mp (by rw [hlenK, hK0])
      subst hxs
      have htr : st0.tau_ref ≤ 0 := by
        have hcle : ⌈st0.tau_ref / st0.dt⌉ ≤ 0 := Int.toNat_eq_zero.mp hK0
        have hle : st0.tau_ref / st0.dt ≤ 0 := by
          have h1 := Int.le_ceil (st0.tau_ref / st0.dt)
          have h2 : ((⌈st0.tau_ref / st0.dt⌉ : ℤ) : ℝ) ≤ 0 := by
            exact_mod_cast hcle
          linarith
        nlinarith [div_mul_cancel₀ st0.tau_ref (ne_of_gt hdt)]
      refine ⟨by rw [show DiehlAndCookPopulation.steps (DiehlAndCookPopulation.forward st0 x0).1
          [] = (DiehlAndCookPopulation.forward st0 x0).1 from rfl, hr1]; exact htr, ?_⟩
      intro x
      have hgate : (DiehlAndCookPopulation.forward st0 x0).1.refrac i ≤ 0 := by
        rw [hr1]; exact htr
      show DiehlAndCookPopulation.vMid (DiehlAndCookPopulation.forward st0 x0).1 x i =
        st0.rest + x i
      simp only [DiehlAndCookPopulation.vMid, DiehlAndCookPopulation.decayV]
      rw [hv1, if_pos hgate]
      simp only [DiehlAndCookPopulation.dac_forward_rest]
      ring
    · have hc0 : (0:ℤ) ≤ ⌈st0.tau_ref / st0.dt⌉ := by
        by_contra hneg
        push_neg at hneg
        rw [Int.toNat_of_nonpos hneg.le] at hKpos
        exact absurd hKpos (by norm_num)
      have hKcast : (((⌈st0.tau_ref / st0.dt⌉).toNat : ℕ) : ℝ) =
          ((⌈st0.tau_ref / st0.dt⌉ : ℤ) : ℝ) := by
        exact_mod_cast congrArg (fun z : ℤ => (z : ℝ))
          (Int.toNat_of_nonneg hc0)
      have hbud : ((xs.length : ℝ) - 1) * (DiehlAndCookPopulation.forward st0 x0).1.dt <
          (DiehlAndCookPopulation.forward st0 x0).1.refrac i := by
        simp only [DiehlAndCookPopulation.dac_forward_dt]
        rw [hr1]
        have h1 : (xs.length : ℝ) - 1 < st0.tau_ref / st0.dt := by
          rw [hlenK, hKcast]
          have := Int.ceil_lt_add_one (st0.tau_ref / st0.dt)
          linarith
        calc ((xs.length : ℝ) - 1) * st0.dt
            < st0.tau_ref / st0.dt * st0.dt :=
              mul_lt_mul_of_pos_right h1 hdt
          _ = st0.tau_ref := div_mul_cancel₀ _ (ne_of_gt hdt)
      have hwin := dac_window xs (DiehlAndCookPopulation.forward st0 x0).1 i
        (by simpa using hv1) hth1 hdt1 hbud
      have hrefF : (DiehlAndCookPopulation.steps (DiehlAndCookPopulation.forward st0 x0).1
          xs).refrac i ≤ 0 := by
        rw [hwin.2, hr1]
        simp only [DiehlAndCookPopulation.dac_forward_dt]
        rw [hlenK, hKcast]
        have hceil := Int.le_ceil (st0.tau_ref / st0.dt)
        have h3 : st0.tau_ref / st0.dt * st0.dt ≤
            ((⌈st0.tau_ref / st0.dt⌉ : ℤ) : ℝ) * st0.dt :=
          mul_le_mul_of_nonneg_right hceil hdt.le
        rw [div_mul_cancel₀ _ (ne_of_gt hdt)] at h3
        linarith
      refine ⟨hrefF, ?_⟩
      intro x
      have hFv : (DiehlAndCookPopulation.steps (DiehlAndCookPopulation.forward st0 x0).1
          xs).v i = st0.rest := by simpa using hwin.1
      have hparams := dac_steps_params xs (DiehlAndCookPopulation.forward st0 x0).1
      simp only [DiehlAndCookPopulation.vMid, DiehlAndCookPopulation.decayV]
      rw [hFv, if_pos hrefF, hparams.2.1]
      simp only [DiehlAndCookPopulation.dac_forward_rest]
      ring


/-- One held step of `IFPopulation`: while the neuron sits at `rest`
below threshold with a strictly positive refractory counter, a step leaves
`v` at `rest` and decrements the counter by `dt`. -/
lemma if_hold_one {n : ℕ} (st : IFPopulation.State n) (x : Fin n → ℝ)
    (i : Fin n) (hv : st.v i = st.rest)
    (hth : st.rest < st.v_th) (hr : 0 < st.refrac i) :
    (IFPopulation.forward st x).1.v i = st.rest ∧
    (IFPopulation.forward st x).1.refrac i = st.refrac i - st.dt := by
  have hgate : ¬ st.refrac i ≤ 0 := not_le.mpr hr
  have hvm : IFPopulation.vMid st x i = st.rest := by
    simp [IFPopulation.vMid, hv, hgate]
  have hs : IFPopulation.sNew st x i = 0 := by
    have hlt : ¬ IFPopulation.vMid st x i ≥ st.v_th := by
      rw [hvm]
      exact not_le.mpr hth
    simp [IFPopulation.sNew, hlt]
  constructor
  · simp [hs, hvm]
  · simp [hs]

/-- The function `IFPopulation.steps` never changes the hyperparameters. -/
lemma if_steps_params {n : ℕ} (xs : List (Fin n → ℝ))
    (st : IFPopulation.State n) :
    (IFPopulation.steps st xs).dt = st.dt ∧
    (IFPopulation.steps st xs).rest = st.rest ∧
    (IFPopulation.steps st xs).v_th = st.v_th ∧
    (IFPopulation.steps st xs).tau_ref = st.tau_ref := by
  induction xs generalizing st with
  | nil => exact ⟨rfl, rfl, rfl, rfl⟩
  | cons x xs ih =>
    simp only [IFPopulation.steps]
    simpa using ih (IFPopulation.forward st x).1

/-- Holding window of `IFPopulation`. -/
lemma if_window {n : ℕ} (xs : List (Fin n → ℝ)) :
    ∀ (st : IFPopulation.State n) (i : Fin n),
      st.v i = st.rest → st.rest < st.v_th → 0 < st.dt →
      ((xs.length : ℝ) - 1) * st.dt < st.refrac i →
      (IFPopulation.steps st xs).v i = st.rest ∧
      (IFPopulation.steps st xs).refrac i =
        st.refrac i - xs.length * st.dt := by
  induction xs with
  | nil =>
    intro st i hv _ _ _
    exact ⟨hv, by simp [IFPopulation.steps]⟩
  | cons x xs ih =>
    intro st i hv hth hdt hbud
    have hb' : (xs.length : ℝ) * st.dt < st.refrac i := by
      have h := hbud
      push_cast [List.length_cons] at h
      rw [show ((xs.length : ℝ) + 1 - 1) = (xs.length : ℝ) from by ring] at h
      exact h
    have hr : 0 < st.refrac i :=
      lt_of_le_of_lt (mul_nonneg (Nat.cast_nonneg _) hdt.le) hb'
    have hone := if_hold_one st x i hv hth hr
    have hbud' : ((xs.length : ℝ) - 1) * (IFPopulation.forward st x).1.dt <
        (IFPopulation.forward st x).1.refrac i := by
      simp only [IFPopulation.if_forward_dt]
      rw [hone.2,
        show ((xs.length : ℝ) - 1) * st.dt = (xs.length : ℝ) * st.dt - st.dt
          from by ring]
      linarith
    have hrec := ih (IFPopulation.forward st x).1 i (by simpa using hone.1)
      (by simpa using hth) (by simpa using hdt) hbud'
    constructor
    · simpa [IFPopulation.steps] using hrec.1
    · simp only [IFPopulation.steps]
      rw [hrec.2, hone.2]
      simp only [IFPopulation.if_forward_dt]
      push_cast [List.length_cons]
      ring

/-- Refractory enforcement for `IFPopulation` (the C4 property for this
variant). -/
lemma if_refractory {n : ℕ} (st0 : IFPopulation.State n) (x0 : Fin n → ℝ)
    (i : Fin n) (hdt : 0 < st0.dt) (hth : st0.rest < st0.v_th)
    (hs : (IFPopulation.forward st0 x0).1.s i = 1) :
    (∀ xs : List (Fin n → ℝ),
      xs.length ≤ (⌈st0.tau_ref / st0.dt⌉).toNat →
      (IFPopulation.steps (IFPopulation.forward st0 x0).1 xs).v i =
        (IFPopulation.forward st0 x0).1.v i) ∧
    (∀ xs : List (Fin n → ℝ),
      xs.length = (⌈st0.tau_ref / st0.dt⌉).toNat →
      (IFPopulation.steps (IFPopulation.forward st0 x0).1 xs).refrac i ≤ 0 ∧
      ∀ x : Fin n → ℝ,
        IFPopulation.vMid
          (IFPopulation.steps (IFPopulation.forward st0 x0).1 xs) x i =
          st0.rest + x i) := by
  have hs' : IFPopulation.sNew st0 x0 i = 1 := by simpa using hs
  have hv1 : (IFPopulation.forward st0 x0).1.v i = st0.rest := by
    simp [hs']
  have hr1 : (IFPopulation.forward st0 x0).1.refrac i = st0.tau_ref := by
    simp [hs']
  have hth1 : (IFPopulation.forward st0 x0).1.rest <
      (IFPopulation.forward st0 x0).1.v_th := by simpa using hth
  have hdt1 : (0:ℝ) < (IFPopulation.forward st0 x0).1.dt := by simpa using hdt
  constructor
  · intro xs hlen
    rcases Nat.eq_zero_or_pos xs.length with h0 | hpos
    · obtain rfl := List.length_eq_zero.mp h0
      rfl
    · have hK1 : 1 ≤ (⌈st0.tau_ref / st0.dt⌉).toNat := le_trans hpos hlen
      have hc0 : (0:ℤ) ≤ ⌈st0.tau_ref / st0.dt⌉ := by
        by_contra hneg
        push_neg at hneg
        rw [Int.toNat_of_nonpos hneg.le] at hK1
        exact absurd hK1 (by norm_num)
      have hKcast : (((⌈st0.tau_ref / st0.dt⌉).toNat : ℕ) : ℝ) =
          ((⌈st0.tau_ref / st0.dt⌉ : ℤ) : ℝ) := by
        exact_mod_cast congrArg (fun z : ℤ => (z : ℝ))
          (Int.toNat_of_nonneg hc0)
      have hlenR : ((xs.length : ℕ) : ℝ) ≤
          (((⌈st0.tau_ref / st0.dt⌉).toNat : ℕ) : ℝ) := Nat.cast_le.mpr hlen
      have hbud : ((xs.length : ℝ) - 1) * (IFPopulation.forward st0 x0).1.dt <
          (IFPopulation.forward st0 x0).1.refrac i := by
        simp only [IFPopulation.if_forward_dt]
        rw [hr1]
        have h1 : (xs.length : ℝ) - 1 < st0.tau_ref / st0.dt := by
          rw [hKcast] at hlenR
          have := Int.ceil_lt_add_one (st0.tau_ref / st0.dt)
          linarith
        calc ((xs.length : ℝ) - 1) * st0.dt
            < st0.tau_ref / st0.dt * st0.dt :=
              mul_lt_mul_of_pos_right h1 hdt
          _ = st0.tau_ref := div_mul_cancel₀ _ (ne_of_gt hdt)
      have hwin := if_window xs (IFPopulation.forward st0 x0).1 i
        (by simpa using hv1) hth1 hdt1 hbud
      rw [hwin.1, hv1]
      simp
  · intro xs hlenK
    rcases Nat.eq_zero_or_pos ((⌈st0.tau_ref / st0.dt⌉).toNat) with hK0 | hKpos
    · have hxs : xs = [] := List.length_eq_zero.mp (by rw [hlenK, hK0])
      subst hxs
      have htr : st0.tau_ref ≤ 0 := by
        have hcle : ⌈st0.tau_ref / st0.dt⌉ ≤ 0 := Int.toNat_eq_zero.mp hK0
        have hle : st0.tau_ref / st0.dt ≤ 0 := by
          have h1 := Int.le_ceil (st0.tau_ref / st0.dt)
          have h2 : ((⌈st0.tau_ref / st0.dt⌉ : ℤ) : ℝ) ≤ 0 := by
            exact_mod_cast hcle
          linarith
        nlinarith [div_mul_cancel₀ st0.tau_ref (ne_of_gt hdt)]
      refine ⟨by rw [show IFPopulation.steps (IFPopulation.forward st0 x0).1
          [] = (IFPopulation.forward st0 x0).1 from rfl, hr1]; exact htr, ?_⟩
      intro x
      have hgate : (IFPopulation.forward st0 x0).1.refrac i ≤ 0 := by
        rw [hr1]; exact htr
      show IFPopulation.vMid (IFPopulation.forward st0 x0).1 x i =
        st0.rest + x i
      simp only [IFPopulation.vMid]
      rw [hv1, if_pos hgate]
      ring
    · have hc0 : (0:ℤ) ≤ ⌈st0.tau_ref / st0.dt⌉ := by
        by_contra hneg
        push_neg at hneg
        rw [Int.toNat_of_nonpos hneg.le] at hKpos
        exact absurd hKpos (by norm_num)
      have hKcast : (((⌈st0.tau_ref / st0.dt⌉).toNat : ℕ) : ℝ) =
          ((⌈st0.tau_ref / st0.dt⌉ : ℤ) : ℝ) := by
        exact_mod_cast congrArg (fun z : ℤ => (z : ℝ))
          (Int.toNat_of_nonneg hc0)
      have hbud : ((xs.length : ℝ) - 1) * (IFPopulation.forward st0 x0).1.dt <
          (IFPopulation.forward st0 x0).1.refrac i := by
        simp only [IFPopulation.if_forward_dt]
        rw [hr1]
        have h1 : (xs.length : ℝ) - 1 < st0.tau_ref / st0.dt := by
          rw [hlenK, hKcast]
          have := Int.ceil_lt_add_one (st0.tau_ref / st0.dt)
          linarith
        calc ((xs.length : ℝ) - 1) * st0.dt
            < st0.tau_ref / st0.dt * st0.dt :=
              mul_lt_mul_of_pos_right h1 hdt
          _ = st0.tau_ref := div_mul_cancel₀ _ (ne_of_gt hdt)
      have hwin := if_window xs (IFPopulation.forward st0 x0).1 i
        (by simpa using hv1) hth1 hdt1 hbud
      have hrefF : (IFPopulation.steps (IFPopulation.forward st0 x0).1
          xs).refrac i ≤ 0 := by
        rw [hwin.2, hr1]
        simp only [IFPopulation.if_forward_dt]
        rw [hlenK, hKcast]
        have hceil := Int.le_ceil (st0.tau_ref / st0.dt)
        have h3 : st0.tau_ref / st0.dt * st0.dt ≤
            ((⌈st0.tau_ref / st0.dt⌉ : ℤ) : ℝ) * st0.dt :=
          mul_le_mul_of_nonneg_right hceil hdt.le
        rw [div_mul_cancel₀ _ (ne_of_gt hdt)] at h3
        linarith
      refine ⟨hrefF, ?_⟩
      intro x
      have hFv : (IFPopulation.steps (IFPopulation.forward st0 x0).1
          xs).v i = st0.rest := by simpa using hwin.1
      simp only [IFPopulation.vMid]
      rw [hFv, if_pos hrefF]
      ring

/-- One held step of `HomoeostasisLIFPopulation`: while neuron `i` sits at
`rest` below its effective threshold with a strictly positive refractory
counter, a step leaves `v i` at `rest`, decrements the counter by `dt`,
and can only raise `theta i` (the non-spiking branch adds the positive
constant `exp(-(dt/tau_theta))`; a frozen threshold is unchanged). -/
lemma hlif_hold_one {n : ℕ} (st : HomoeostasisLIFPopulation.State n)
    (x : Fin n → ℝ) (i : Fin n) (hv : st.v i = st.rest)
    (hth : st.rest < st.v_th + st.theta i) (hr : 0 < st.refrac i) :
    (HomoeostasisLIFPopulation.forward st x).1.v i = st.rest ∧
    (HomoeostasisLIFPopulation.forward st x).1.refrac i =
      st.refrac i - st.dt ∧
    st.theta i ≤ (HomoeostasisLIFPopulation.forward st x).1.theta i := by
  have hgate : ¬ st.refrac i ≤ 0 := not_le.mpr hr
  have hvm : HomoeostasisLIFPopulation.vMid st x i = st.rest := by
    simp [HomoeostasisLIFPopulation.vMid, HomoeostasisLIFPopulation.decayV,
      hv, hgate]
  have hs : HomoeostasisLIFPopulation.sNew st x i = 0 := by
    have hlt : ¬ HomoeostasisLIFPopulation.vMid st x i ≥
        st.v_th + st.theta i := by
      rw [hvm]
      exact not_le.mpr hth
    simp [HomoeostasisLIFPopulation.sNew, hlt]
  refine ⟨by simp [hs, hvm], by simp [hs], ?_⟩
  rw [HomoeostasisLIFPopulation.hlif_forward_theta_def]
  by_cases hfr : st.frozen_th = false
  · rw [if_pos hfr]
    have hexp := (Real.exp_pos (-(st.dt / st.tau_theta))).le
    simp only [hs]
    norm_num
    linarith
  · rw [if_neg hfr]

/-- The function `HomoeostasisLIFPopulation.steps` never changes the hyperparameters. -/
lemma hlif_steps_params {n : ℕ} (xs : List (Fin n → ℝ))
    (st : HomoeostasisLIFPopulation.State n) :
    (HomoeostasisLIFPopulation.steps st xs).dt = st.dt ∧
    (HomoeostasisLIFPopulation.steps st xs).rest = st.rest ∧
    (HomoeostasisLIFPopulation.steps st xs).v_th = st.v_th ∧
    (HomoeostasisLIFPopulation.steps st xs).tau_ref = st.tau_ref := by
  induction xs generalizing st with
  | nil => exact ⟨rfl, rfl, rfl, rfl⟩
  | cons x xs ih =>
    simp only [HomoeostasisLIFPopulation.steps]
    simpa using ih (HomoeostasisLIFPopulation.forward st x).1

/-- Holding window of `HomoeostasisLIFPopulation`: the effective-threshold
margin `rest < v_th + theta i` is itself an invariant during the hold,
because a non-spiking neuron's theta never decreases. -/
lemma hlif_window {n : ℕ} (xs : List (Fin n → ℝ)) :
    ∀ (st : HomoeostasisLIFPopulation.State n) (i : Fin n),
      st.v i = st.rest → st.rest < st.v_th + st.theta i → 0 < st.dt →
      ((xs.length : ℝ) - 1) * st.dt < st.refrac i →
      (HomoeostasisLIFPopulation.steps st xs).v i = st.rest ∧
      (HomoeostasisLIFPopulation.steps st xs).refrac i =
        st.refrac i - xs.length * st.dt := by
  induction xs with
  | nil =>
    intro st i hv _ _ _
    exact ⟨hv, by simp [HomoeostasisLIFPopulation.steps]⟩
  | cons x xs ih =>
    intro st i hv hth hdt hbud
    have hb' : (xs.length : ℝ) * st.dt < st.refrac i := by
      have h := hbud
      push_cast [List.length_cons] at h
      rw [show ((xs.length : ℝ) + 1 - 1) = (xs.length : ℝ) from by ring] at h
      exact h
    have hr : 0 < st.refrac i :=
      lt_of_le_of_lt (mul_nonneg (Nat.cast_nonneg _) hdt.le) hb'
    have hone := hlif_hold_one st x i hv hth hr
    have hth' : (HomoeostasisLIFPopulation.forward st x).1.rest <
        (HomoeostasisLIFPopulation.forward st x).1.v_th +
          (HomoeostasisLIFPopulation.forward st x).1.theta i := by
      have hmono := hone.2.2
      simp only [HomoeostasisLIFPopulation.hlif_forward_rest,
        HomoeostasisLIFPopulation.hlif_forward_v_th]
      linarith
    have hbud' : ((xs.length : ℝ) - 1) *
        (HomoeostasisLIFPopulation.forward st x).1.dt <
        (HomoeostasisLIFPopulation.forward st x).1.refrac i := by
      simp only [HomoeostasisLIFPopulation.hlif_forward_dt]
      rw [hone.2.1,
        show ((xs.length : ℝ) - 1) * st.dt = (xs.length : ℝ) * st.dt - st.dt
          from by ring]
      linarith
    have hrec := ih (HomoeostasisLIFPopulation.forward st x).1 i
      (by simpa using hone.1) hth' (by simpa using hdt) hbud'
    constructor
    · simpa [HomoeostasisLIFPopulation.steps] using hrec.1
    · simp only [HomoeostasisLIFPopulation.steps]
      rw [hrec.2, hone.2.1]
      simp only [HomoeostasisLIFPopulation.hlif_forward_dt]
      push_cast [List.length_cons]
      ring

/-- Refractory enforcement for `HomoeostasisLIFPopulation` (the C4
property for this variant); the margin hypothesis is taken at the
post-spike state, whose theta already includes the spike increment. -/
lemma hlif_refractory {n : ℕ} (st0 : HomoeostasisLIFPopulation.State n)
    (x0 : Fin n → ℝ) (i : Fin n) (hdt : 0 < st0.dt)
    (hth : st0.rest < st0.v_th +
      (HomoeostasisLIFPopulation.forward st0 x0).1.theta i)
    (hs : (HomoeostasisLIFPopulation.forward st0 x0).1.s i = 1) :
    (∀ xs : List (Fin n → ℝ),
      xs.length ≤ (⌈st0.tau_ref / st0.dt⌉).toNat →
      (HomoeostasisLIFPopulation.steps
        (HomoeostasisLIFPopulation.forward st0 x0).1 xs).v i =
        (HomoeostasisLIFPopulation.forward st0 x0).1.v i) ∧
    (∀ xs : List (Fin n → ℝ),
      xs.length = (⌈st0.tau_ref / st0.dt⌉).toNat →
      (HomoeostasisLIFPopulation.steps
        (HomoeostasisLIFPopulation.forward st0 x0).1 xs).refrac i ≤ 0 ∧
      ∀ x : Fin n → ℝ,
        HomoeostasisLIFPopulation.vMid
          (HomoeostasisLIFPopulation.steps
            (HomoeostasisLIFPopulation.forward st0 x0).1 xs) x i =
          st0.rest + x i) := by
  have hs' : HomoeostasisLIFPopulation.sNew st0 x0 i = 1 := by simpa using hs
  have hv1 : (HomoeostasisLIFPopulation.forward st0 x0).1.v i = st0.rest := by
    simp [hs']
  have hr1 : (HomoeostasisLIFPopulation.forward st0 x0).1.refrac i =
      st0.tau_ref := by
    simp [hs']
  have hth1 : (HomoeostasisLIFPopulation.forward st0 x0).1.rest <
      (HomoeostasisLIFPopulation.forward st0 x0).1.v_th +
        (HomoeostasisLIFPopulation.forward st0 x0).1.theta i := by
    simpa using hth
  have hdt1 : (0:ℝ) < (HomoeostasisLIFPopulation.forward st0 x0).1.dt := by
    simpa using hdt
  constructor
  · intro xs hlen
    rcases Nat.eq_zero_or_pos xs.length with h0 | hpos
    · obtain rfl := List.length_eq_zero.mp h0
      rfl
    · have hK1 : 1 ≤ (⌈st0.tau_ref / st0.dt⌉).toNat := le_trans hpos hlen
      have hc0 : (0:ℤ) ≤ ⌈st0.tau_ref / st0.dt⌉ := by
        by_contra hneg
        push_neg at hneg
        rw [Int.toNat_of_nonpos hneg.le] at hK1
        exact absurd hK1 (by norm_num)
      have hKcast : (((⌈st0.tau_ref / st0.dt⌉).toNat : ℕ) : ℝ) =
          ((⌈st0.tau_ref / st0.dt⌉ : ℤ) : ℝ) := by
        exact_mod_cast congrArg (fun z : ℤ => (z : ℝ))
          (Int.toNat_of_nonneg hc0)
      have hlenR : ((xs.length : ℕ) : ℝ) ≤
          (((⌈st0.tau_ref / st0.dt⌉).toNat : ℕ) : ℝ) := Nat.cast_le.mpr hlen
      have hbud : ((xs.length : ℝ) - 1) *
          (HomoeostasisLIFPopulation.forward st0 x0).1.dt <
          (HomoeostasisLIFPopulation.forward st0 x0).1.refrac i := by
        simp only [HomoeostasisLIFPopulation.hlif_forward_dt]
        rw [hr1]
        have h1 : (xs.length : ℝ) - 1 < st0.tau_ref / st0.dt := by
          rw [hKcast] at hlenR
          have := Int.ceil_lt_add_one (st0.tau_ref / st0.dt)
          linarith
        calc ((xs.length : ℝ) - 1) * st0.dt
            < st0.tau_ref / st0.dt * st0.dt :=
              mul_lt_mul_of_pos_right h1 hdt
          _ = st0.tau_ref := div_mul_cancel₀ _ (ne_of_gt hdt)
      have hwin := hlif_window xs (HomoeostasisLIFPopulation.forward st0 x0).1
        i (by simpa using hv1) hth1 hdt1 hbud
      rw [hwin.1, hv1]
      simp
  · intro xs hlenK
    rcases Nat.eq_zero_or_pos ((⌈st0.tau_ref / st0.dt⌉).toNat) with hK0 | hKpos
    · have hxs : xs = [] := List.length_eq_zero.mp (by rw [hlenK, hK0])
      subst hxs
      have htr : st0.tau_ref ≤ 0 := by
        have hcle : ⌈st0.tau_ref / st0.dt⌉ ≤ 0 := Int.toNat_eq_zero.mp hK0
        have hle : st0.tau_ref / st0.dt ≤ 0 := by
          have h1 := Int.le_ceil (st0.tau_ref / st0.dt)
          have h2 : ((⌈st0.tau_ref / st0.dt⌉ : ℤ) : ℝ) ≤ 0 := by
            exact_mod_cast hcle
          linarith
        nlinarith [div_mul_cancel₀ st0.tau_ref (ne_of_gt hdt)]
      have hre : (HomoeostasisLIFPopulation.steps
          (HomoeostasisLIFPopulation.forward st0 x0).1 []).refrac i ≤ 0 := by
        rw [show HomoeostasisLIFPopulation.steps
          (HomoeostasisLIFPopulation.forward st0 x0).1 [] =
          (HomoeostasisLIFPopulation.forward st0 x0).1 from rfl, hr1]
        exact htr
      refine ⟨hre, ?_⟩
      intro x
      have hgate : (HomoeostasisLIFPopulation.forward st0 x0).1.refrac i ≤ 0 := by
        rw [hr1]; exact htr
      show HomoeostasisLIFPopulation.vMid
        (HomoeostasisLIFPopulation.forward st0 x0).1 x i = st0.rest + x i
      simp only [HomoeostasisLIFPopulation.vMid,
        HomoeostasisLIFPopulation.decayV]
      rw [hv1, if_pos hgate]
      simp only [HomoeostasisLIFPopulation.hlif_forward_rest]
      ring
    · have hc0 : (0:ℤ) ≤ ⌈st0.tau_ref / st0.dt⌉ := by
        by_contra hneg
        push_neg at hneg
        rw [Int.toNat_of_nonpos hneg.le] at hKpos
        exact absurd hKpos (by norm_num)
      have hKcast : (((⌈st0.tau_ref / st0.dt⌉).toNat : ℕ) : ℝ) =
          ((⌈st0.tau_ref / st0.dt⌉ : ℤ) : ℝ) := by
        exact_mod_cast congrArg (fun z : ℤ => (z : ℝ))
          (Int.toNat_of_nonneg hc0)
      have hbud : ((xs.length : ℝ) - 1) *
          (HomoeostasisLIFPopulation.forward st0 x0).1.dt <
          (HomoeostasisLIFPopulation.forward st0 x0).1.refrac i := by
        simp only [HomoeostasisLIFPopulation.hlif_forward_dt]
        rw [hr1]
        have h1 : (xs.length : ℝ) - 1 < st0.tau_ref / st0.dt := by
          rw [hlenK, hKcast]
          have := Int.ceil_lt_add_one (st0.tau_ref / st0.dt)
          linarith
        calc ((xs.length : ℝ) - 1) * st0.dt
            < st0.tau_ref / st0.dt * st0.dt :=
              mul_lt_mul_of_pos_right h1 hdt
          _ = st0.tau_ref := div_mul_cancel₀ _ (ne_of_gt hdt)
      have hwin := hlif_window xs (HomoeostasisLIFPopulation.forward st0 x0).1
        i (by simpa using hv1) hth1 hdt1 hbud
      have hrefF : (HomoeostasisLIFPopulation.steps
          (HomoeostasisLIFPopulation.forward st0 x0).1 xs).refrac i ≤ 0 := by
        rw [hwin.2, hr1]
        simp only [HomoeostasisLIFPopulation.hlif_forward_dt]
        rw [hlenK, hKcast]
        have hceil := Int.le_ceil (st0.tau_ref / st0.dt)
        have h3 : st0.tau_ref / st0.dt * st0.dt ≤
            ((⌈st0.tau_ref / st0.dt⌉ : ℤ) : ℝ) * st0.dt :=
          mul_le_mul_of_nonneg_right hceil hdt.le
        rw [div_mul_cancel₀ _ (ne_of_gt hdt)] at h3
        linarith
      refine ⟨hrefF, ?_⟩
      intro x
      have hFv : (HomoeostasisLIFPopulation.steps
          (HomoeostasisLIFPopulation.forward st0 x0).1 xs).v i = st0.rest := by
        simpa using hwin.1
      have hparams := hlif_steps_params xs
        (HomoeostasisLIFPopulation.forward st0 x0).1
      simp only [HomoeostasisLIFPopulation.vMid,
        HomoeostasisLIFPopulation.decayV]
      rw [hFv, if_pos hrefF, hparams.2.1]
      simp only [HomoeostasisLIFPopulation.hlif_forward_rest]
      ring

/-- Claim C4: for every thresholded population (IF and LIF family), if
neuron `i` spikes at some step (so that step resets `v i` to `rest` and
`refrac i` to `tau_ref`), then — given `dt > 0` and `rest` below the
neuron's effective threshold — `v i` does not change during the next
`ceil(tau_ref/dt)` steps regardless of the inputs supplied, the
refractory counter is nonpositive right after that window, and the very
next step's integration phase adds the full input to `v i` again
(`vMid = rest + x i`).  For the homeostatic variant the margin hypothesis
is taken at the post-spike adaptive threshold. -/
theorem claim_C4_refractory_enforcement :
    (∀ (n : ℕ) (st0 : IFPopulation.State n) (x0 : Fin n → ℝ) (i : Fin n),
      0 < st0.dt → st0.rest < st0.v_th →
      (IFPopulation.forward st0 x0).1.s i = 1 →
      (∀ xs : List (Fin n → ℝ),
        xs.length ≤ (⌈st0.tau_ref / st0.dt⌉).toNat →
        (IFPopulation.steps (IFPopulation.forward st0 x0).1 xs).v i =
          (IFPopulation.forward st0 x0).1.v i) ∧
      (∀ xs : List (Fin n → ℝ),
        xs.length = (⌈st0.tau_ref / st0.dt⌉).toNat →
        (IFPopulation.steps (IFPopulation.forward st0 x0).1 xs).refrac i ≤ 0 ∧
        ∀ x : Fin n → ℝ,
          IFPopulation.vMid
            (IFPopulation.steps (IFPopulation.forward st0 x0).1 xs) x i =
            st0.rest + x i)) ∧
    (∀ (n : ℕ) (st0 : LIFPopulation.State n) (x0 : Fin n → ℝ) (i : Fin n),
      0 < st0.dt → st0.rest < st0.v_th + st0.theta →
      (LIFPopulation.forward st0 x0).1.s i = 1 →
      (∀ xs : List (Fin n → ℝ),
        xs.length ≤ (⌈st0.tau_ref / st0.dt⌉).toNat →
        (LIFPopulation.steps (LIFPopulation.forward st0 x0).1 xs).v i =
          (LIFPopulation.forward st0 x0).1.v i) ∧
      (∀ xs : List (Fin n → ℝ),
        xs.length = (⌈st0.tau_ref / st0.dt⌉).toNat →
        (LIFPopulation.steps (LIFPopulation.forward st0 x0).1 xs).refrac i ≤ 0 ∧
        ∀ x : Fin n → ℝ,
          LIFPopulation.vMid
            (LIFPopulation.steps (LIFPopulation.forward st0 x0).1 xs) x i =
            st0.rest + x i)) ∧
    (∀ (n : ℕ) (st0 : LIFPopulation2.State n) (x0 : Fin n → ℝ) (i : Fin n),
      0 < st0.dt → st0.rest < st0.v_th →
      (LIFPopulation2.forward st0 x0).1.s i = 1 →
      (∀ xs : List (Fin n → ℝ),
        xs.length ≤ (⌈st0.tau_ref / st0.dt⌉).toNat →
        (LIFPopulation2.steps (LIFPopulation2.forward st0 x0).1 xs).v i =
          (LIFPopulation2.forward st0 x0).1.v i) ∧
      (∀ xs : List (Fin n → ℝ),
        xs.length = (⌈st0.tau_ref / st0.dt⌉).toNat →
        (LIFPopulation2.steps (LIFPopulation2.forward st0 x0).1
          xs).refrac i ≤ 0 ∧
        ∀ x : Fin n → ℝ,
          LIFPopulation2.vMid
            (LIFPopulation2.steps (LIFPopulation2.forward st0 x0).1 xs) x i =
            st0.rest + x i)) ∧
    (∀ (n : ℕ) (st0 : HomoeostasisLIFPopulation.State n) (x0 : Fin n → ℝ)
        (i : Fin n),
      0 < st0.dt →
      st0.rest < st0.v_th +
        (HomoeostasisLIFPopulation.forward st0 x0).1.theta i →
      (HomoeostasisLIFPopulation.forward st0 x0).1.s i = 1 →
      (∀ xs : List (Fin n → ℝ),
        xs.length ≤ (⌈st0.tau_ref / st0.dt⌉).toNat →
        (HomoeostasisLIFPopulation.steps
          (HomoeostasisLIFPopulation.forward st0 x0).1 xs).v i =
          (HomoeostasisLIFPopulation.forward st0 x0).1.v i) ∧
      (∀ xs : List (Fin n → ℝ),
        xs.length = (⌈st0.tau_ref / st0.dt⌉).toNat →
        (HomoeostasisLIFPopulation.steps
          (HomoeostasisLIFPopulation.forward st0 x0).1 xs).refrac i ≤ 0 ∧
        ∀ x : Fin n → ℝ,
          HomoeostasisLIFPopulation.vMid
            (HomoeostasisLIFPopulation.steps
              (HomoeostasisLIFPopulation.forward st0 x0).1 xs) x i =
            st0.rest + x i)) ∧
    (∀ (n : ℕ) (st0 : DiehlAndCookPopulation.State n) (x0 : Fin n → ℝ)
        (i : Fin n),
      0 < st0.dt → st0.rest < st0.v_th + st0.theta →
      (DiehlAndCookPopulation.forward st0 x0).1.s i = 1 →
      (∀ xs : List (Fin n → ℝ),
        xs.length ≤ (⌈st0.tau_ref / st0.dt⌉).toNat →
        (DiehlAndCookPopulation.steps
          (DiehlAndCookPopulation.forward st0 x0).1 xs).v i =
          (DiehlAndCookPopulation.forward st0 x0).1.v i) ∧
      (∀ xs : List (Fin n → ℝ),
        xs.length = (⌈st0.tau_ref / st0.dt⌉).toNat →
        (DiehlAndCookPopulation.steps
          (DiehlAndCookPopulation.forward st0 x0).1 xs).refrac i ≤ 0 ∧
        ∀ x : Fin n → ℝ,
          DiehlAndCookPopulation.vMid
            (DiehlAndCookPopulation.steps
              (DiehlAndCookPopulation.forward st0 x0).1 xs) x i =
            st0.rest + x i)) :=
  ⟨fun n st0 x0 i hdt hth hs => if_refractory st0 x0 i hdt hth hs,
   fun n st0 x0 i hdt hth hs => lif_refractory st0 x0 i hdt hth hs,
   fun n st0 x0 i hdt hth hs => lif2_refractory st0 x0 i hdt hth hs,
   fun n st0 x0 i hdt hth hs => hlif_refractory st0 x0 i hdt hth hs,
   fun n st0 x0 i hdt hth hs => dac_refractory st0 x0 i hdt hth hs⟩

/-- Concrete IF population for the C4 witness: one neuron, `v_th = 0.9`,
`rest = 0`, `tau_ref = 2`, `dt = 1`, with spike counting enabled. -/
def ifW : IFPopulation.State 1 := IFPopulation.init 1 1 (9/10) 0 2 true

/-- The constant input 1 fed to `ifW` in the C4 witness. -/
def ifWIn : Fin 1 → ℝ := fun _ => 1

/-- Witness for C4 on `ifW`: the neuron spikes on input 1, and one held
step later its potential is still the reset value. -/
theorem claim_C4_witness :
    (0:ℝ) < ifW.dt ∧ ifW.rest < ifW.v_th ∧
    (IFPopulation.forward ifW ifWIn).1.s ⟨0, by norm_num⟩ = 1 ∧
    [fun _ : Fin 1 => (5:ℝ)].length ≤ (⌈ifW.tau_ref / ifW.dt⌉).toNat ∧
    (IFPopulation.steps (IFPopulation.forward ifW ifWIn).1
        [fun _ : Fin 1 => (5:ℝ)]).v ⟨0, by norm_num⟩ =
      (IFPopulation.forward ifW ifWIn).1.v ⟨0, by norm_num⟩ := by
  have hdt : (0:ℝ) < ifW.dt := by norm_num [ifW, IFPopulation.init]
  have hth : ifW.rest < ifW.v_th := by norm_num [ifW, IFPopulation.init]
  have hspike : (IFPopulation.forward ifW ifWIn).1.s ⟨0, by norm_num⟩ = 1 := by
    simp [IFPopulation.sNew, IFPopulation.vMid, ifW, IFPopulation.init, ifWIn]
    norm_num
  have hlen : [fun _ : Fin 1 => (5:ℝ)].length ≤ (⌈ifW.tau_ref / ifW.dt⌉).toNat := by
    have : ifW.tau_ref / ifW.dt = (2:ℝ) := by
      norm_num [ifW, IFPopulation.init]
    rw [this]
    norm_num
  exact ⟨hdt, hth, hspike, hlen,
    (claim_C4_refractory_enforcement.1 1 ifW ifWIn ⟨0, by norm_num⟩ hdt hth
      hspike).1 [fun _ : Fin 1 => (5:ℝ)] hlen⟩

/-! ## Claim about the ordered LIF-family recurrence (C1) -/

/-- Claim C1: for each LIF-family population (`LIFPopulation`,
`LIFPopulation2`, `HomoeostasisLIFPopulation`, `DiehlAndCookPopulation`)
one `forward` call performs exactly, in this order: (1) decay
`v := exp(-dt/tau_rc) * (v - rest) + rest`; (2) `v += x` only where
`refrac <= 0`; (3) `refrac -= dt`; (4) `s := (v >= v_th + theta)` with
theta being 0 for `LIFPopulation2`, the scalar constant for
`LIFPopulation` and `DiehlAndCookPopulation`, and the per-neuron adaptive
vector for `HomoeostasisLIFPopulation`; (5) `refrac := tau_ref` and
`v := rest` exactly where the step-(4) mask is 1 — i.e. the new
`(s, v, refrac)` equals `specOrderedStep` — and it returns `(s, v)`. -/
theorem claim_C1_lif_family_step_order :
    (∀ (n : ℕ) (st : LIFPopulation.State n) (x : Fin n → ℝ),
      ((LIFPopulation.forward st x).1.s, (LIFPopulation.forward st x).1.v,
          (LIFPopulation.forward st x).1.refrac) =
        specOrderedStep st.dt st.tau_rc st.v_th st.rest st.tau_ref
          (fun _ => st.theta) st.v st.refrac x ∧
      (LIFPopulation.forward st x).2 =
        ((LIFPopulation.forward st x).1.s, (LIFPopulation.forward st x).1.v)) ∧
    (∀ (n : ℕ) (st : LIFPopulation2.State n) (x : Fin n → ℝ),
      ((LIFPopulation2.forward st x).1.s, (LIFPopulation2.forward st x).1.v,
          (LIFPopulation2.forward st x).1.refrac) =
        specOrderedStep st.dt st.tau_rc st.v_th st.rest st.tau_ref
          (fun _ => 0) st.v st.refrac x ∧
      (LIFPopulation2.forward st x).2 =
        ((LIFPopulation2.forward st x).1.s,
          (LIFPopulation2.forward st x).1.v)) ∧
    (∀ (n : ℕ) (st : HomoeostasisLIFPopulation.State n) (x : Fin n → ℝ),
      ((HomoeostasisLIFPopulation.forward st x).1.s,
          (HomoeostasisLIFPopulation.forward st x).1.v,
          (HomoeostasisLIFPopulation.forward st x).1.refrac) =
        specOrderedStep st.dt st.tau_rc st.v_th st.rest st.tau_ref
          st.theta st.v st.refrac x ∧
      (HomoeostasisLIFPopulation.forward st x).2 =
        ((HomoeostasisLIFPopulation.forward st x).1.s,
          (HomoeostasisLIFPopulation.forward st x).1.v)) ∧
    (∀ (n : ℕ) (st : DiehlAndCookPopulation.State n) (x : Fin n → ℝ),
      ((DiehlAndCookPopulation.forward st x).1.s,
          (DiehlAndCookPopulation.forward st x).1.v,
          (DiehlAndCookPopulation.forward st x).1.refrac) =
        specOrderedStep st.dt st.tau_rc st.v_th st.rest st.tau_ref
          (fun _ => st.theta) st.v st.refrac x ∧
      (DiehlAndCookPopulation.forward st x).2 =
        ((DiehlAndCookPopulation.forward st x).1.s,
          (DiehlAndCookPopulation.forward st x).1.v)) := by
  refine ⟨?_, ?_, ?_, ?_⟩
  · intro n st x
    refine ⟨?_, rfl⟩
    simp only [LIFPopulation.lif_forward_s, LIFPopulation.lif_forward_v,
      LIFPopulation.lif_forward_refrac, specOrderedStep, Prod.mk.injEq]
    refine ⟨?_, ?_, ?_⟩
    · funext i
      simp only [LIFPopulation.sNew, LIFPopulation.vMid, LIFPopulation.decayV,
        gate_mul]
    · funext i
      simp only [LIFPopulation.sNew, LIFPopulation.vMid, LIFPopulation.decayV,
        gate_mul, fill_eq]
    · funext i
      simp only [LIFPopulation.sNew, LIFPopulation.vMid, LIFPopulation.decayV,
        gate_mul, fill_eq]
  · intro n st x
    refine ⟨?_, rfl⟩
    simp only [LIFPopulation2.lif2_forward_s, LIFPopulation2.lif2_forward_v,
      LIFPopulation2.lif2_forward_refrac, specOrderedStep, Prod.mk.injEq]
    refine ⟨?_, ?_, ?_⟩
    · funext i
      simp only [LIFPopulation2.sNew, LIFPopulation2.vMid,
        LIFPopulation2.decayV, gate_mul, add_zero]
    · funext i
      simp only [LIFPopulation2.sNew, LIFPopulation2.vMid,
        LIFPopulation2.decayV, gate_mul, fill_eq, add_zero]
    · funext i
      simp only [LIFPopulation2.sNew, LIFPopulation2.vMid,
        LIFPopulation2.decayV, gate_mul, fill_eq, add_zero]
  · intro n st x
    refine ⟨?_, rfl⟩
    simp only [HomoeostasisLIFPopulation.hlif_forward_s,
      HomoeostasisLIFPopulation.hlif_forward_v,
      HomoeostasisLIFPopulation.hlif_forward_refrac, specOrderedStep,
      Prod.mk.injEq]
    refine ⟨?_, ?_, ?_⟩
    · funext i
      simp only [HomoeostasisLIFPopulation.sNew, HomoeostasisLIFPopulation.vMid,
        HomoeostasisLIFPopulation.decayV, gate_mul]
    · funext i
      simp only [HomoeostasisLIFPopulation.sNew, HomoeostasisLIFPopulation.vMid,
        HomoeostasisLIFPopulation.decayV, gate_mul, fill_eq]
    · funext i
      simp only [HomoeostasisLIFPopulation.sNew, HomoeostasisLIFPopulation.vMid,
        HomoeostasisLIFPopulation.decayV, gate_mul, fill_eq]
  · intro n st x
    refine ⟨?_, rfl⟩
    simp only [DiehlAndCookPopulation.dac_forward_s,
      DiehlAndCookPopulation.dac_forward_v, DiehlAndCookPopulation.dac_forward_refrac,
      specOrderedStep, Prod.mk.injEq]
    refine ⟨?_, ?_, ?_⟩
    · funext i
      simp only [DiehlAndCookPopulation.sNew, DiehlAndCookPopulation.vMid,
        DiehlAndCookPopulation.decayV, gate_mul]
    · funext i
      simp only [DiehlAndCookPopulation.sNew, DiehlAndCookPopulation.vMid,
        DiehlAndCookPopulation.decayV, gate_mul, fill_eq]
    · funext i
      simp only [DiehlAndCookPopulation.sNew, DiehlAndCookPopulation.vMid,
        DiehlAndCookPopulation.decayV, gate_mul, fill_eq]

/-! ## Claim about spike-state entries being 0/1 (C6) -/

/-- Concrete one-neuron input population used by the C6 counterexample. -/
def inEx : InputPopulation.State 1 :=
  { dt := 1, s := fun _ => 0, traces := true, x := fun _ => 0, tau_tr := 20,
    scale_tr := 1, count_spike := false, spikecount := fun _ => 0 }

/-- Counterexample to C6 as stated: `InputPopulation.forward` assigns the
raw input into `s` with no thresholding, so the analog input value `1/2`
leaves an `s` entry that is neither 0 nor 1. -/
theorem claim_C6_counterexample :
    ¬ ((InputPopulation.forward inEx (fun _ => 1/2)).1.s ⟨0, by norm_num⟩ = 0 ∨
       (InputPopulation.forward inEx (fun _ => 1/2)).1.s ⟨0, by norm_num⟩ = 1) := by
  simp only [InputPopulation.forward]
  norm_num

/-- Claim C6 amended: after every `forward` call of every *thresholded*
variant (IF and the LIF family) every entry of `s` is exactly 0 or 1;
`InputPopulation.forward` instead copies the raw input vector into `s`
unchanged, so its entries are 0/1 only when the input is. -/
theorem claim_C6_amended_spike_state_binary :
    (∀ (n : ℕ) (st : IFPopulation.State n) (x : Fin n → ℝ) (i : Fin n),
      (IFPopulation.forward st x).1.s i = 0 ∨
        (IFPopulation.forward st x).1.s i = 1) ∧
    (∀ (n : ℕ) (st : LIFPopulation.State n) (x : Fin n → ℝ) (i : Fin n),
      (LIFPopulation.forward st x).1.s i = 0 ∨
        (LIFPopulation.forward st x).1.s i = 1) ∧
    (∀ (n : ℕ) (st : LIFPopulation2.State n) (x : Fin n → ℝ) (i : Fin n),
      (LIFPopulation2.forward st x).1.s i = 0 ∨
        (LIFPopulation2.forward st x).1.s i = 1) ∧
    (∀ (n : ℕ) (st : HomoeostasisLIFPopulation.State n) (x : Fin n → ℝ)
        (i : Fin n),
      (HomoeostasisLIFPopulation.forward st x).1.s i = 0 ∨
        (HomoeostasisLIFPopulation.forward st x).1.s i = 1) ∧
    (∀ (n : ℕ) (st : DiehlAndCookPopulation.State n) (x : Fin n → ℝ)
        (i : Fin n),
      (DiehlAndCookPopulation.forward st x).1.s i = 0 ∨
        (DiehlAndCookPopulation.forward st x).1.s i = 1) ∧
    (∀ (n : ℕ) (st : InputPopulation.State n) (x : Fin n → ℝ),
      (InputPopulation.forward st x).1.s = x) := by
  refine ⟨?_, ?_, ?_, ?_, ?_, fun n st x => rfl⟩
  · intro n st x i
    simp only [IFPopulation.if_forward_s, IFPopulation.sNew]
    exact indicator_binary _
  · intro n st x i
    simp only [LIFPopulation.lif_forward_s, LIFPopulation.sNew]
    exact indicator_binary _
  · intro n st x i
    simp only [LIFPopulation2.lif2_forward_s, LIFPopulation2.sNew]
    exact indicator_binary _
  · intro n st x i
    simp only [HomoeostasisLIFPopulation.hlif_forward_s,
      HomoeostasisLIFPopulation.sNew]
    exact indicator_binary _
  · intro n st x i
    simp only [DiehlAndCookPopulation.dac_forward_s, DiehlAndCookPopulation.sNew]
    exact indicator_binary _

/-! ## Claim that Diehl&Cook refines LIF on (s, v) (C9) -/

/-- The shared hyperparameters and dynamical state of a `LIFPopulation`
and a `DiehlAndCookPopulation` agree (the trace fields of the latter are
unconstrained). -/
def lifDacMatch {n : ℕ} (l : LIFPopulation.State n)
    (d : DiehlAndCookPopulation.State n) : Prop :=
  l.dt = d.dt ∧ l.tau_rc = d.tau_rc ∧ l.v_th = d.v_th ∧ l.theta = d.theta ∧
  l.rest = d.rest ∧ l.tau_ref = d.tau_ref ∧ l.v = d.v ∧ l.refrac = d.refrac ∧
  l.s = d.s

lemma lifDac_vMid_eq {n : ℕ} {l : LIFPopulation.State n}
    {d : DiehlAndCookPopulation.State n} (h : lifDacMatch l d)
    (x : Fin n → ℝ) : LIFPopulation.vMid l x = DiehlAndCookPopulation.vMid d x := by
  obtain ⟨hdt, hrc, hth, hthe, hrest, href, hv, hrefr, hs⟩ := h
  funext i
  simp [LIFPopulation.vMid, DiehlAndCookPopulation.vMid, LIFPopulation.decayV,
    DiehlAndCookPopulation.decayV, hdt, hrc, hrest, hv, hrefr]

lemma lifDac_sNew_eq {n : ℕ} {l : LIFPopulation.State n}
    {d : DiehlAndCookPopulation.State n} (h : lifDacMatch l d)
    (x : Fin n → ℝ) : LIFPopulation.sNew l x = DiehlAndCookPopulation.sNew d x := by
  have hvm := lifDac_vMid_eq h x
  obtain ⟨hdt, hrc, hth, hthe, hrest, href, hv, hrefr, hs⟩ := h
  funext i
  simp [LIFPopulation.sNew, DiehlAndCookPopulation.sNew, hvm, hth, hthe]

lemma lifDacMatch_step {n : ℕ} {l : LIFPopulation.State n}
    {d : DiehlAndCookPopulation.State n} (h : lifDacMatch l d)
    (x : Fin n → ℝ) :
    lifDacMatch (LIFPopulation.forward l x).1
      (DiehlAndCookPopulation.forward d x).1 ∧
    (LIFPopulation.forward l x).2 = (DiehlAndCookPopulation.forward d x).2 := by
  have hvm := lifDac_vMid_eq h x
  have hsn := lifDac_sNew_eq h x
  obtain ⟨hdt, hrc, hth, hthe, hrest, href, hv, hrefr, hs⟩ := h
  have hvnew : (LIFPopulation.forward l x).1.v =
      (DiehlAndCookPopulation.forward d x).1.v := by
    simp [hsn, hvm, hrest]
  refine ⟨⟨by simp [hdt], by simp [hrc], by simp [hth], by simp [hthe],
    by simp [hrest], by simp [href], hvnew, ?_, by simp [hsn]⟩, ?_⟩
  · simp [hsn, href, hrefr, hdt]
  · rw [LIFPopulation.lif_forward_snd, DiehlAndCookPopulation.dac_forward_snd,
      LIFPopulation.lif_forward_s, DiehlAndCookPopulation.dac_forward_s, hsn, hvnew]

/-- Claim C9: with identical shared hyperparameters and identical initial
dynamical state, `DiehlAndCookPopulation` returns exactly the same
`(s, v)` output sequence as `LIFPopulation` on every input sequence: the
trace `x` is updated after the spike/reset phase and never feeds back into
the membrane, threshold or refractory dynamics. -/
theorem claim_C9_dac_outputs_equal_lif :
    ∀ (n : ℕ) (l : LIFPopulation.State n) (d : DiehlAndCookPopulation.State n),
      lifDacMatch l d →
      ∀ xs : List (Fin n → ℝ),
        DiehlAndCookPopulation.outs d xs = LIFPopulation.outs l xs := by
  intro n l d h xs
  induction xs generalizing l d with
  | nil => rfl
  | cons x xs ih =>
    have hstep := lifDacMatch_step h x
    simp only [LIFPopulation.outs, DiehlAndCookPopulation.outs]
    rw [hstep.2, ih _ _ hstep.1]

/-- Concrete one-neuron LIF population (the constructor defaults). -/
def lifEx : LIFPopulation.State 1 :=
  LIFPopulation.init 1 1 100 (-52) (5/100) (-65) 5

/-- Concrete one-neuron Diehl&Cook population matching `lifEx`. -/
def dacEx : DiehlAndCookPopulation.State 1 :=
  { dt := 1, v := fun _ => -65, tau_rc := 100, v_th := -52, theta := 5/100,
    s := fun _ => 0, rest := -65, refrac := fun _ => 0, tau_ref := 5,
    traces := true, x := fun _ => 0, tau_tr := 20, scale_tr := 1 }

/-- Witness for C9 at the concrete matching pair. -/
theorem claim_C9_witness :
    lifDacMatch lifEx dacEx ∧
    DiehlAndCookPopulation.outs dacEx [fun _ => 100] =
      LIFPopulation.outs lifEx [fun _ => 100] :=
  have h : lifDacMatch lifEx dacEx :=
    ⟨rfl, rfl, rfl, rfl, rfl, rfl, rfl, rfl, rfl⟩
  ⟨h, claim_C9_dac_outputs_equal_lif 1 lifEx dacEx h [fun _ => 100]⟩

/-! ## Claim about the concrete IF scenario (C5) -/

/-- The population `IFPopulation(1, v_th=0.9, rest=0, tau_ref=0)` with the default
`dt=1` and `count_spike=False`. -/
def ifEx : IFPopulation.State 1 := IFPopulation.init 1 1 (9/10) 0 0 false

/-- The constant input 1 fed at each of the three steps. -/
def oneIn : Fin 1 → ℝ := fun _ => 1

/-- State after the first, second and third `forward` call on `ifEx`. -/
def ifEx1 : IFPopulation.State 1 := (IFPopulation.forward ifEx oneIn).1

def ifEx2 : IFPopulation.State 1 := (IFPopulation.forward ifEx1 oneIn).1

def ifEx3 : IFPopulation.State 1 := (IFPopulation.forward ifEx2 oneIn).1

/-- One step of the C5 scenario from any state with `v = 0`, `refrac = 0`
and the scenario's hyperparameters: the potential integrates to 1, the
neuron spikes, `v` and `refrac` are reset to 0, and the call raises
`AttributeError` because the `count_spike` attribute was never set. -/
lemma ifEx_run_step (st : IFPopulation.State 1)
    (hv : st.v = fun _ => 0) (hrefr : st.refrac = fun _ => 0)
    (hth : st.v_th = 9/10) (hrest : st.rest = 0) (htref : st.tau_ref = 0)
    (hdt : st.dt = 1) (hcs : st.count_spike = false) :
    IFPopulation.vMid st oneIn = (fun _ => 1) ∧
    (IFPopulation.forward st oneIn).1.s = (fun _ => 1) ∧
    (IFPopulation.forward st oneIn).1.v = (fun _ => 0) ∧
    (IFPopulation.forward st oneIn).1.refrac = (fun _ => 0) ∧
    (IFPopulation.forward st oneIn).2 = .error .attributeError ∧
    (IFPopulation.forward st oneIn).1.v_th = 9/10 ∧
    (IFPopulation.forward st oneIn).1.rest = 0 ∧
    (IFPopulation.forward st oneIn).1.tau_ref = 0 ∧
    (IFPopulation.forward st oneIn).1.dt = 1 ∧
    (IFPopulation.forward st oneIn).1.count_spike = false := by
  have hvm : IFPopulation.vMid st oneIn = fun _ => 1 := by
    funext i
    simp [IFPopulation.vMid, hv, hrefr, oneIn]
  have hsn : IFPopulation.sNew st oneIn = fun _ => 1 := by
    funext i
    rw [IFPopulation.sNew]
    simp only [hvm, hth]
    norm_num
  refine ⟨hvm, ?_, ?_, ?_, ?_, by simp [hth], by simp [hrest],
    by simp [htref], by simp [hdt], ?_⟩
  · simp [hsn]
  · funext i
    simp [hsn, hrest]
  · funext i
    simp [hsn, htref]
  · simp [IFPopulation.forward, hcs]
  · simp only [IFPopulation.forward, hcs]
    rfl

/-- Counterexample to C5 as stated: on the very first step the neuron
already spikes (`s = 1`, not the claimed 0), and `forward` does not return
at all — it raises `AttributeError`, because `__init__` with the default
`count_spike=False` never sets the `count_spike` attribute that `forward`
reads after the resets. -/
theorem claim_C5_counterexample :
    ifEx1.s ⟨0, by norm_num⟩ = 1 ∧ ¬ ifEx1.s ⟨0, by norm_num⟩ = 0 ∧
    (IFPopulation.forward ifEx oneIn).2 = .error .attributeError := by
  have h := ifEx_run_step ifEx (by funext i; rfl) rfl rfl rfl rfl rfl rfl
  refine ⟨?_, ?_, h.2.2.2.2.1⟩
  · show (IFPopulation.forward ifEx oneIn).1.s _ = 1
    rw [h.2.1]
  · show ¬ (IFPopulation.forward ifEx oneIn).1.s _ = 0
    rw [h.2.1]
    norm_num

/-- Claim C5 amended: feeding `[1,1,1]` to
`IFPopulation(1, v_th=0.9, rest=0, tau_ref=0)` computes the spike values
`s = [1,1,1]` in the population state — on every step the potential
immediately before the threshold check is 1 (≥ 0.9, so every step spikes,
`tau_ref=0` imposing no refractory gap) and `v = 0` after the reset — but
every `forward` call raises `AttributeError` after mutating the state
(`count_spike=False` leaves the attribute unset), so no `(s, v)` pair is
ever returned. -/
theorem claim_C5_amended_if_run :
    IFPopulation.vMid ifEx oneIn = (fun _ => 1) ∧
    ifEx1.s = (fun _ => 1) ∧ ifEx1.v = (fun _ => 0) ∧
    (IFPopulation.forward ifEx oneIn).2 = .error .attributeError ∧
    IFPopulation.vMid ifEx1 oneIn = (fun _ => 1) ∧
    ifEx2.s = (fun _ => 1) ∧ ifEx2.v = (fun _ => 0) ∧
    (IFPopulation.forward ifEx1 oneIn).2 = .error .attributeError ∧
    IFPopulation.vMid ifEx2 oneIn = (fun _ => 1) ∧
    ifEx3.s = (fun _ => 1) ∧ ifEx3.v = (fun _ => 0) ∧
    (IFPopulation.forward ifEx2 oneIn).2 = .error .attributeError := by
  have h1 := ifEx_run_step ifEx (by funext i; rfl) rfl rfl rfl rfl rfl rfl
  have h2 := ifEx_run_step ifEx1 h1.2.2.1 h1.2.2.2.1 h1.2.2.2.2.2.1
    h1.2.2.2.2.2.2.1 h1.2.2.2.2.2.2.2.1 h1.2.2.2.2.2.2.2.2.1
    h1.2.2.2.2.2.2.2.2.2
  have h3 := ifEx_run_step ifEx2 h2.2.2.1 h2.2.2.2.1 h2.2.2.2.2.2.1
    h2.2.2.2.2.2.2.1 h2.2.2.2.2.2.2.2.1 h2.2.2.2.2.2.2.2.2.1
    h2.2.2.2.2.2.2.2.2.2
  exact ⟨h1.1, h1.2.1, h1.2.2.1, h1.2.2.2.2.1, h2.1, h2.2.1, h2.2.2.1,
    h2.2.2.2.2.1, h3.1, h3.2.1, h3.2.2.1, h3.2.2.2.2.1⟩

/-! ## Claim about input-length mismatch handling (C7) -/

/-- Concrete two-neuron input population used by the C7 counterexample. -/
def inEx2 : InputPopulation.State 2 :=
  { dt := 1, s := fun _ => 0, traces := true, x := fun _ => 0, tau_tr := 20,
    scale_tr := 1, count_spike := false, spikecount := fun _ => 0 }

/-- Concrete one-neuron LIF population whose `v` sits away from `rest`. -/
def lifB : LIFPopulation.State 1 :=
  { dt := 1, v := fun _ => 0, tau_rc := 100, v_th := -52, theta := 5/100,
    s := fun _ => 0, rest := -65, refrac := fun _ => 0, tau_ref := 5 }

/-- Counterexample to C7 as stated: a length-1 input fed to a 2-neuron
population does not fail at all — it is silently broadcast (padded) to
both neurons — and a non-broadcastable input fed to a leaky population
leaves `v` partially updated (the decay has already been applied) when the
shape error is raised. -/
theorem claim_C7_counterexample :
    [(5:ℝ)].length ≠ 2 ∧
    (InputPopulation.forwardL inEx2 [5]).2 = .ok (fun _ => 5) ∧
    (InputPopulation.forwardL inEx2 [5]).1.s = (fun _ => 5) ∧
    [(1:ℝ), 2, 3].length ≠ 1 ∧
    (LIFPopulation.forwardL lifB [1, 2, 3]).2 = .error .shapeError ∧
    (LIFPopulation.forwardL lifB [1, 2, 3]).1.v ⟨0, by norm_num⟩ ≠
      lifB.v ⟨0, by norm_num⟩ := by
  have hb : broadcastTo 2 [(5:ℝ)] = some (fun _ => 5) := by
    simp [broadcastTo]
  have hb3 : broadcastTo 1 [(1:ℝ), 2, 3] = none := by
    simp [broadcastTo]
  refine ⟨by simp, ?_, ?_, by simp, ?_, ?_⟩
  · simp only [InputPopulation.forwardL, hb]
    rfl
  · simp only [InputPopulation.forwardL, hb]
    rfl
  · simp only [LIFPopulation.forwardL, hb3]
  · simp only [LIFPopulation.forwardL, hb3]
    show LIFPopulation.decayV lifB _ ≠ _
    simp only [LIFPopulation.decayV, lifB]
    intro h
    have : Real.exp (-(1:ℝ) / 100) = 1 := by nlinarith [h]
    rw [Real.exp_eq_one_iff] at this
    norm_num at this

/-- Claim C7 amended: there is no dedicated `DimensionMismatch` check; an
input whose length is neither `neuron_count` nor 1 raises the tensor
library's shape error at the first operation consuming it, an input of
length 1 is silently broadcast (padded) to every neuron with no error,
and for the leaky variants the decay step has already overwritten `v`
when the error is raised, so the state can be partially updated. -/
theorem claim_C7_amended_shape_error :
    (∀ (n : ℕ) (st : InputPopulation.State n) (x : List ℝ),
      x.length ≠ n → x.length ≠ 1 →
      (InputPopulation.forwardL st x).2 = .error .shapeError) ∧
    (∀ (n : ℕ) (st : IFPopulation.State n) (x : List ℝ),
      x.length ≠ n → x.length ≠ 1 →
      (IFPopulation.forwardL st x).2 = .error .shapeError) ∧
    (∀ (n : ℕ) (st : LIFPopulation.State n) (x : List ℝ),
      x.length ≠ n → x.length ≠ 1 →
      (LIFPopulation.forwardL st x).2 = .error .shapeError) ∧
    (∀ (n : ℕ) (st : LIFPopulation2.State n) (x : List ℝ),
      x.length ≠ n → x.length ≠ 1 →
      (LIFPopulation2.forwardL st x).2 = .error .shapeError) ∧
    (∀ (n : ℕ) (st : HomoeostasisLIFPopulation.State n) (x : List ℝ),
      x.length ≠ n → x.length ≠ 1 →
      (HomoeostasisLIFPopulation.forwardL st x).2 = .error .shapeError) ∧
    (∀ (n : ℕ) (st : DiehlAndCookPopulation.State n) (x : List ℝ),
      x.length ≠ n → x.length ≠ 1 →
      (DiehlAndCookPopulation.forwardL st x).2 = .error .shapeError) ∧
    (∀ (n : ℕ) (st : InputPopulation.State n) (c : ℝ),
      (InputPopulation.forwardL st [c]).2 = .ok (fun _ => c)) ∧
    (∀ (n : ℕ) (st : LIFPopulation.State n) (x : List ℝ),
      x.length ≠ n → x.length ≠ 1 →
      (LIFPopulation.forwardL st x).1.v = LIFPopulation.decayV st) := by
  have hnone : ∀ (n : ℕ) (x : List ℝ), x.length ≠ n → x.length ≠ 1 →
      broadcastTo n x = none := by
    intro n x h1 h2
    simp [broadcastTo, h1, h2]
  refine ⟨?_, ?_, ?_, ?_, ?_, ?_, ?_, ?_⟩
  · intro n st x h1 h2
    simp only [InputPopulation.forwardL, hnone n x h1 h2]
  · intro n st x h1 h2
    simp only [IFPopulation.forwardL, hnone n x h1 h2]
  · intro n st x h1 h2
    simp only [LIFPopulation.forwardL, hnone n x h1 h2]
  · intro n st x h1 h2
    simp only [LIFPopulation2.forwardL, hnone n x h1 h2]
  · intro n st x h1 h2
    simp only [HomoeostasisLIFPopulation.forwardL, hnone n x h1 h2]
  · intro n st x h1 h2
    simp only [DiehlAndCookPopulation.forwardL, hnone n x h1 h2]
  · intro n st c
    rcases eq_or_ne n 1 with h | h
    · subst h
      have hb : broadcastTo 1 [c] = some (fun _ => c) := by
        have : (fun (i : Fin 1) => [c].getD i 0) = fun _ => c := by
          funext i
          rcases i with ⟨iv, hiv⟩
          have : iv = 0 := Nat.lt_one_iff.mp hiv
          subst this
          rfl
        simp [broadcastTo, this]
      simp only [InputPopulation.forwardL, hb]
      rfl
    · have hb : broadcastTo n [c] = some (fun _ => c) := by
        simp [broadcastTo, Ne.symm h]
      simp only [InputPopulation.forwardL, hb]
      rfl
  · intro n st x h1 h2
    simp only [LIFPopulation.forwardL, hnone n x h1 h2]

/-- Witness for C7 (amended) on a concrete one-neuron input population fed
a length-2 input. -/
theorem claim_C7_witness :
    [(5:ℝ), 6].length ≠ 1 ∧
    (InputPopulation.forwardL inEx [5, 6]).2 = .error .shapeError :=
  ⟨by simp, claim_C7_amended_shape_error.1 1 inEx [5, 6] (by simp) (by simp)⟩

/-- Witness for C8 on a concrete traces-disabled one-neuron state. -/
theorem claim_C8_witness :
    ({ dt := 1, s := fun _ => 0, traces := false, x := fun _ => 0, tau_tr := 20,
       scale_tr := 1, count_spike := false, spikecount := fun _ => 0 } :
        InputPopulation.State 1).traces = false ∧
    InputPopulation.reset
      ({ dt := 1, s := fun _ => 0, traces := false, x := fun _ => 0, tau_tr := 20,
         scale_tr := 1, count_spike := false, spikecount := fun _ => 0 } :
          InputPopulation.State 1) = .error .attributeError :=
  ⟨rfl, claim_C8_traces_false_construction_fails.2.1 1 _ rfl⟩

end
